import Mathlib

/-!
Verification development for the songscrapper capture/consolidation pipeline
(`fullupdate.py`).  The Python source is shallowly embedded: dictionaries
become association lists with Python-dict semantics (update-in-place on an
existing key, append otherwise; iteration in insertion order), strings stay
`String`, machine behaviour of `hashlib.md5` is implemented bit-for-bit over
`Nat` with explicit `% 2^32`.  Wall-clock fields (`added_at`, `last_updated`,
`processed_at` timestamps) and cosmetic logging are omitted: no claim refers
to them.  File-system side effects (mp3/cover-art files) are likewise out of
scope; the three persisted JSON tables are modelled as a `Disk` record.
-/

namespace SongScrapper

/-! ## Python-dict association lists

`dictInsert` mirrors `d[k] = v` on a Python dict: replace the first binding
of `k` in place, otherwise append.  `dictGet` mirrors `d.get(k)`;
`dictUpdate` mirrors `d.update(new)` (fold of single assignments in the
iteration order of `new`). -/

def dictGet {α : Type} : List (String × α) → String → Option α
  | [], _ => none
  | e :: rest, k => if e.1 = k then some e.2 else dictGet rest k

def dictInsert {α : Type} (l : List (String × α)) (k : String) (v : α) :
    List (String × α) :=
  match l with
  | [] => [(k, v)]
  | e :: rest => if e.1 = k then (k, v) :: rest else e :: dictInsert rest k v

def dictUpdate {α : Type} (base new : List (String × α)) : List (String × α) :=
  new.foldl (fun acc e => dictInsert acc e.1 e.2) base

def dictKeys {α : Type} (l : List (String × α)) : List String := l.map Prod.fst

/-! ## MD5 (`hashlib.md5`), over `Nat` with explicit reductions mod 2^32 -/

namespace Md5

def M32 : Nat := 4294967296

def add32 (a b : Nat) : Nat := (a + b) % M32

def not32 (a : Nat) : Nat := 4294967295 - a % M32

/-- Left-rotation of a 32-bit word, written arithmetically: the two summands
occupy disjoint bit ranges, so `+` equals the usual `or`. -/
def rotl32 (x n : Nat) : Nat := (x % M32) % 2 ^ (32 - n) * 2 ^ n + x % M32 / 2 ^ (32 - n)

def funF (b c d : Nat) : Nat := (b &&& c) ||| (not32 b &&& d)

def funG (b c d : Nat) : Nat := (b &&& d) ||| (c &&& not32 d)

def funH (b c d : Nat) : Nat := b ^^^ c ^^^ d

def funI (b c d : Nat) : Nat := c ^^^ (b ||| not32 d)

def Klist : List Nat :=
  [3614090360, 3905402710, 606105819, 3250441966,
   4118548399, 1200080426, 2821735955, 4249261313,
   1770035416, 2336552879, 4294925233, 2304563134,
   1804603682, 4254626195, 2792965006, 1236535329,
   4129170786, 3225465664, 643717713, 3921069994,
   3593408605, 38016083, 3634488961, 3889429448,
   568446438, 3275163606, 4107603335, 1163531501,
   2850285829, 4243563512, 1735328473, 2368359562,
   4294588738, 2272392833, 1839030562, 4259657740,
   2763975236, 1272893353, 4139469664, 3200236656,
   681279174, 3936430074, 3572445317, 76029189,
   3654602809, 3873151461, 530742520, 3299628645,
   4096336452, 1126891415, 2878612391, 4237533241,
   1700485571, 2399980690, 4293915773, 2240044497,
   1873313359, 4264355552, 2734768916, 1309151649,
   4149444226, 3174756917, 718787259, 3951481745]

def Slist : List Nat :=
  [7, 12, 17, 22, 7, 12, 17, 22, 7, 12, 17, 22, 7, 12, 17, 22,
   5, 9, 14, 20, 5, 9, 14, 20, 5, 9, 14, 20, 5, 9, 14, 20,
   4, 11, 16, 23, 4, 11, 16, 23, 4, 11, 16, 23, 4, 11, 16, 23,
   6, 10, 15, 21, 6, 10, 15, 21, 6, 10, 15, 21, 6, 10, 15, 21]

def mixIdx (i : Nat) : Nat :=
  if i < 16 then i
  else if i < 32 then (5 * i + 1) % 16
  else if i < 48 then (3 * i + 5) % 16
  else (7 * i) % 16

def roundFun (i b c d : Nat) : Nat :=
  if i < 16 then funF b c d
  else if i < 32 then funG b c d
  else if i < 48 then funH b c d
  else funI b c d

/-- One MD5 round on state `(a, b, c, d)` with message words `w`. -/
def step (w : Nat → Nat) (st : Nat × Nat × Nat × Nat) (i : Nat) :
    Nat × Nat × Nat × Nat :=
  let (a, b, c, d) := st
  let f := add32 (add32 (add32 a (roundFun i b c d)) (Klist.getD i 0)) (w (mixIdx i))
  (d, add32 b (rotl32 f (Slist.getD i 0)), b, c)

def processBlock (st : Nat × Nat × Nat × Nat) (block : List Nat) :
    Nat × Nat × Nat × Nat :=
  let w : Nat → Nat := fun j =>
    block.getD (4 * j) 0 + 256 * block.getD (4 * j + 1) 0 +
      65536 * block.getD (4 * j + 2) 0 + 16777216 * block.getD (4 * j + 3) 0
  let (a, b, c, d) := (List.range 64).foldl (step w) st
  let (a0, b0, c0, d0) := st
  (add32 a0 a, add32 b0 b, add32 c0 c, add32 d0 d)

/-- Length field: 8 bytes, little-endian, of the bit length. -/
def lenBytes (bits : Nat) : List Nat :=
  (List.range 8).map (fun i => bits / 2 ^ (8 * i) % 256)

def padBytes (msg : List Nat) : List Nat :=
  let n := msg.length
  let zeros := (120 - (n + 1) % 64) % 64
  msg ++ [128] ++ List.replicate zeros 0 ++ lenBytes (8 * n)

def wordLEBytes (x : Nat) : List Nat :=
  [x % 256, x / 256 % 256, x / 65536 % 256, x / 16777216 % 256]

/-- MD5 digest (16 bytes) of a byte list. -/
def md5Bytes (msg : List Nat) : List Nat :=
  let padded := padBytes msg
  let nBlocks := padded.length / 64
  let final := (List.range nBlocks).foldl
    (fun st b => processBlock st ((padded.drop (64 * b)).take 64))
    (1732584193, 4023233417, 2562383102, 271733878)
  let (a, b, c, d) := final
  wordLEBytes a ++ wordLEBytes b ++ wordLEBytes c ++ wordLEBytes d

def hexDigit (n : Nat) : Char :=
  if n < 10 then Char.ofNat (48 + n) else Char.ofNat (87 + n)

def byteHex (b : Nat) : List Char := [hexDigit (b / 16), hexDigit (b % 16)]

/-- Hex digest of a byte list, as `hashlib.md5(...).hexdigest()`. -/
def md5HexBytes (msg : List Nat) : String :=
  ⟨(md5Bytes msg).flatMap byteHex⟩

end Md5

/-- UTF-8 bytes of a string.  The strings this code hashes are produced by
`re.sub(r'[^a-z0-9_]', '', ...)`, hence pure ASCII, where UTF-8 bytes are the
code points. -/
def strBytes (s : String) : List Nat := s.data.map Char.toNat

def md5Hex (s : String) : String := Md5.md5HexBytes (strBytes s)

/-! ## Configuration constants used by the embedded fragment -/

namespace Config

def MIN_TRACK_NAME_LENGTH : Nat := 1

def MIN_ARTIST_NAME_LENGTH : Nat := 1

def SKIP_INVALID_TRACKS : Bool := true

def MAX_RETRIES : Nat := 3

end Config

/-! ## Data model

`TrackInfo` carries the fields of the extracted track dictionary that the
consolidation engine reads (`track_name`, `artists`, `artists_string`,
`album_name`, `track_uri`); purely decorative fields (cover art, duration,
playcount, added-by, timestamps) are omitted, no claim mentions them.
`SongInfo` models one entry of `songs_database.json`: the first-seen
metadata snapshot, the playlist membership list, and the download status
recorded under `download_info`. -/

structure TrackInfo where
  track_name : String
  artists : List String
  artists_string : String
  album_name : String
  track_uri : String
deriving Repr, DecidableEq, Inhabited

structure SongInfo where
  metadata : TrackInfo
  playlists : List String
  download_status : String
deriving Repr, DecidableEq, Inhabited

/-- In-memory state of `SmartSongManager`: the songs table plus the two
lookup indexes built at load time. -/
structure Manager where
  existing_songs : List (String × SongInfo)
  uri_to_song_id : List (String × String)
  name_artist_to_song_id : List (String × String)
deriving Repr, DecidableEq

/-- `\s` of the `re` module and the character set stripped by a bare
Python `str.strip()` (ASCII fragment). -/
def isSpaceChar (c : Char) : Bool :=
  c == ' ' || c == '\t' || c == '\n' || c == '\r' ||
    c == '\x0b' || c == '\x0c'

/-- Python `str.strip(chars)`: drop matching characters from both ends. -/
def pyStrip (p : Char → Bool) (l : List Char) : List Char :=
  ((l.dropWhile p).reverse.dropWhile p).reverse

/-- Python `str.strip()` with no argument: strip whitespace from both
ends. -/
def trimStr (s : String) : String := ⟨pyStrip isSpaceChar s.data⟩

/-- Python `str.lower()` on the ASCII fragment (Unicode case folding
beyond ASCII is not modelled). -/
def lowerStr (s : String) : String := ⟨s.data.map Char.toLower⟩

/-- Python slicing `s[:n]`. -/
def takeStr (s : String) (n : Nat) : String := ⟨s.data.take n⟩

/-- Python `.lower().strip()` as applied to names before comparison. -/
def normStr (s : String) : String := trimStr (lowerStr s)

/-- One iteration of `SmartSongManager.load_existing_database`: insert the
song and register its URI and its name+artist key when present. -/
def registerSong (m : Manager) (song_id : String) (song : SongInfo) : Manager :=
  let m1 := { m with existing_songs := dictInsert m.existing_songs song_id song }
  let track_uri := song.metadata.track_uri
  let m2 := if track_uri ≠ "" then
    { m1 with uri_to_song_id := dictInsert m1.uri_to_song_id track_uri song_id }
  else m1
  let track_name := normStr song.metadata.track_name
  let artists := normStr song.metadata.artists_string
  if track_name ≠ "" ∧ artists ≠ "" then
    { m2 with name_artist_to_song_id :=
        dictInsert m2.name_artist_to_song_id (track_name ++ "|" ++ artists) song_id }
  else m2

/-- `SmartSongManager.load_existing_database` on the decoded songs table. -/
def load_existing_database (db : List (String × SongInfo)) : Manager :=
  db.foldl (fun m e => registerSong m e.1 e.2) ⟨[], [], []⟩

/-- Characters kept by `re.sub(r'[^a-z0-9_]', '', ...)`. -/
def isCleanChar (c : Char) : Bool :=
  ('a' ≤ c && c ≤ 'z') || ('0' ≤ c && c ≤ '9') || c == '_'

/-- `SmartSongManager.generate_song_id`. -/
def generate_song_id (track_name artists : String) : String :=
  let clean_string : String :=
    ⟨(lowerStr (track_name ++ "_" ++ artists)).data.filter isCleanChar⟩
  "song_" ++ takeStr (md5Hex clean_string) 12

/-- `SmartSongManager.find_existing_song`, returning the resolved song id.
(The source also returns `self.existing_songs[song_id]` alongside; callers
use the id and the `skip_download` flag, so the record component is
elided.) -/
def find_existing_song (m : Manager) (t : TrackInfo) : Option String :=
  let track_uri := t.track_uri
  let track_name := normStr t.track_name
  let artists := normStr t.artists_string
  match (if track_uri ≠ "" then dictGet m.uri_to_song_id track_uri else none) with
  | some song_id => some song_id
  | none =>
    if track_name ≠ "" ∧ artists ≠ "" then
      dictGet m.name_artist_to_song_id (track_name ++ "|" ++ artists)
    else none

/-- The find-or-mint step of `extract_enhanced_track_info` (lines 816-827,
with smart deduplication enabled): reuse the id found by
`find_existing_song`, otherwise mint one with `generate_song_id`. -/
def resolve_song_id (m : Manager) (t : TrackInfo) : String :=
  match find_existing_song m t with
  | some song_id => song_id
  | none => generate_song_id t.track_name t.artists_string

/-! ## Item normalisation and the validation gate -/

/-- `validate_track_data`. -/
def validate_track_data (t : TrackInfo) : Bool × String :=
  let track_name := trimStr t.track_name
  let artists_string := trimStr t.artists_string
  if track_name = "" ∨ track_name.length < Config.MIN_TRACK_NAME_LENGTH then
    (false, "Track name is empty or too short")
  else if artists_string = "" ∨ artists_string.length < Config.MIN_ARTIST_NAME_LENGTH then
    (false, "Artist name is empty or too short")
  else if lowerStr track_name ∈ (["unknown track", "unknown", ""] : List String) then
    (false, "Track name is placeholder value")
  else if lowerStr artists_string ∈ (["unknown artist", "unknown", ""] : List String) then
    (false, "Artist name is placeholder value")
  else (true, "Valid")

/-- One raw element of a `PlaylistItemsPage` items array, reduced to the
fields the extractor reads.  `isTrackWrapper` is the
`__typename == 'TrackResponseWrapper'` test; `artistEntries` lists the
`(profile.name, uri)` pairs of `artists.items`. -/
structure RawItem where
  isTrackWrapper : Bool
  name : String
  uri : String
  artistEntries : List (String × String)
  albumName : String
deriving Repr, DecidableEq, Inhabited

/-- Artist collection loop of `extract_enhanced_track_info`: strip each
name, drop empties, deduplicate by exact name in first-seen order. -/
def collectArtists (l : List (String × String)) : List String :=
  l.foldl (fun acc a =>
    let n := trimStr a.1
    if n ≠ "" ∧ n ∉ acc then acc ++ [n] else acc) []

/-- `safe_get(..., default=d)` on a single string field: the raw value is
kept when its stripped form is non-empty, otherwise the default. -/
def safeStr (s dflt : String) : String := if trimStr s = "" then dflt else s

/-- Field extraction of `extract_enhanced_track_info` building the
preliminary track dictionary handed to validation and dedup. -/
def make_track_info (item : RawItem) : TrackInfo :=
  let track_name := trimStr (safeStr item.name "")
  let track_uri := safeStr item.uri ""
  let artist_names := collectArtists item.artistEntries
  let artists_string := if artist_names ≠ [] then String.intercalate ", " artist_names
    else "Unknown Artist"
  let album_name := trimStr (safeStr item.albumName "Unknown Album")
  { track_name, artists := artist_names, artists_string, album_name, track_uri }

/-- One line of the per-session skip log (`log_skipped_track`): the
offending preliminary record and the rejection reason. -/
structure SkipEntry where
  info : TrackInfo
  reason : String
deriving Repr, DecidableEq

/-- One entry of the extracted tracks list: the validated record, its
resolved song id and whether the consolidated file already exists
(`skip_download`). -/
structure TrackRec where
  info : TrackInfo
  song_id : String
  skip_download : Bool
deriving Repr, DecidableEq

inductive ExtractStep where
  | track (r : TrackRec)
  | skip (e : SkipEntry)
  | drop
deriving Repr, DecidableEq

/-- Body of the per-item loop of `extract_enhanced_track_info`: non-track
wrappers are dropped silently, invalid records are skip-logged, valid ones
are resolved against the manager (which the loop only reads). -/
def extract_step (m : Manager) (item : RawItem) : ExtractStep :=
  if ¬ item.isTrackWrapper then .drop else
  let prelim := make_track_info item
  let v := validate_track_data prelim
  if ¬ v.1 ∧ Config.SKIP_INVALID_TRACKS then .skip ⟨prelim, v.2⟩
  else
    match find_existing_song m prelim with
    | some song_id => .track ⟨prelim, song_id, true⟩
    | none => .track ⟨prelim, generate_song_id prelim.track_name prelim.artists_string, false⟩

/-- `extract_enhanced_track_info`: the extracted track list (in item
order) and the skip log. -/
def extract_enhanced_track_info (m : Manager) : List RawItem → List TrackRec × List SkipEntry
  | [] => ([], [])
  | item :: rest =>
    let out := extract_enhanced_track_info m rest
    match extract_step m item with
    | .track r => (r :: out.1, out.2)
    | .skip e => (out.1, e :: out.2)
    | .drop => out

/-! ## Capture deduplicator -/

/-- A decoded, classified payload: the `PlaylistItemsPage` test result and
the raw items array. -/
structure PageData where
  isPlaylistItemsPage : Bool
  items : List RawItem
deriving Repr, DecidableEq

/-- One intercepted request/response pair as `capture_requests` sees it.
`payload = none` models a decode or parse failure (the event is dropped). -/
structure RawEvent where
  reqId : String
  urlHasTarget : Bool
  hasResponse : Bool
  payload : Option PageData
deriving Repr, DecidableEq

/-- `capture_requests` folded over the event stream: filter to the target
endpoint, deduplicate by transport id, append the items of first-seen
playlist pages in arrival order.  (The polling loop re-scans the request
list; dedup by id makes one pass over the stream equivalent.) -/
def capture_requests (events : List RawEvent) : List RawItem :=
  (events.foldl (fun (st : List String × List RawItem) ev =>
    if ev.hasResponse ∧ ev.reqId ∉ st.1 ∧ ev.urlHasTarget then
      let seen := ev.reqId :: st.1
      match ev.payload with
      | some pd => if pd.isPlaylistItemsPage then (seen, st.2 ++ pd.items) else (seen, st.2)
      | none => (seen, st.2)
    else st) ([], [])).2

/-! ## Consolidation: upsert and save -/

/-- Per-playlist state of `PlaylistConsolidator`. -/
structure Consolidator where
  playlist_name : String
  playlist_songs : List String
deriving Repr, DecidableEq

/-- `PlaylistConsolidator.add_song_to_playlist`: upsert the song into the
manager (appending the playlist to an existing song only when absent,
registering URI and name+artist key only for a new song), then append the
id to this playlist once. -/
def add_song_to_playlist (m : Manager) (c : Consolidator) (song_id : String)
    (t : TrackInfo) (download_status : String) : Manager × Consolidator :=
  let m' := match dictGet m.existing_songs song_id with
    | some existing_song =>
      if c.playlist_name ∈ existing_song.playlists then m
      else
        let upd := { existing_song with
          playlists := existing_song.playlists ++ [c.playlist_name] }
        { m with existing_songs := dictInsert m.existing_songs song_id upd }
    | none =>
      let song_info : SongInfo :=
        { metadata := t, playlists := [c.playlist_name], download_status }
      let m1 := { m with existing_songs := dictInsert m.existing_songs song_id song_info }
      let m2 := if t.track_uri ≠ "" then
        { m1 with uri_to_song_id := dictInsert m1.uri_to_song_id t.track_uri song_id }
      else m1
      let track_name := normStr t.track_name
      let artists := normStr t.artists_string
      if track_name ≠ "" ∧ artists ≠ "" then
        { m2 with name_artist_to_song_id :=
            dictInsert m2.name_artist_to_song_id (track_name ++ "|" ++ artists) song_id }
      else m2
  let c' := if song_id ∈ c.playlist_songs then c
    else { c with playlist_songs := c.playlist_songs ++ [song_id] }
  (m', c')

/-- The playlist record written by `set_playlist_metadata` (timestamps and
counters not referenced by any claim are elided). -/
structure PlaylistMeta where
  name : String
  total_tracks : Nat
  songs : List String
deriving Repr, DecidableEq

/-- The three persisted catalog tables: `songs_database.json`,
`playlists_database.json`, `song_playlist_mapping.json`. -/
structure Disk where
  songs : List (String × SongInfo)
  playlistsT : List (String × PlaylistMeta)
  mapping : List (String × List String)
deriving Repr, DecidableEq

/-- `PlaylistConsolidator.save_consolidated_metadata`: re-read each table,
union songs (in-memory wins), overwrite the current playlist record, and
refresh the mapping entry of every unioned song with a non-empty
membership list. -/
def save_consolidated_metadata (m : Manager) (c : Consolidator) (pm : PlaylistMeta)
    (d : Disk) : Disk :=
  let all_songs := dictUpdate d.songs m.existing_songs
  let all_playlists := dictInsert d.playlistsT c.playlist_name pm
  let all_mappings := all_songs.foldl
    (fun acc e => if e.2.playlists ≠ [] then dictInsert acc e.1 e.2.playlists else acc)
    d.mapping
  { songs := all_songs, playlistsT := all_playlists, mapping := all_mappings }

/-! ## `sanitize_filename` -/

/-- Characters removed by `re.sub(r'[<>:"/\\|?*]', '', ...)`. -/
def isInvalidFsChar (c : Char) : Bool :=
  c == '<' || c == '>' || c == ':' || c == '\"' || c == '/' ||
    c == '\\' || c == '|' || c == '?' || c == '*'

/-- `\w` of the `re` module (ASCII fragment). -/
def isWordChar (c : Char) : Bool := c.isAlphanum || c == '_'

def isDashSpace (c : Char) : Bool := c == '-' || isSpaceChar c

/-- `re.sub(r'[-\s]+', '-', ...)`: each maximal run of hyphens and
whitespace becomes a single hyphen.  The flag records whether the previous
character belonged to such a run. -/
def collapseRuns : Bool → List Char → List Char
  | _, [] => []
  | inRun, c :: rest =>
    if isDashSpace c then
      if inRun then collapseRuns true rest else '-' :: collapseRuns true rest
    else c :: collapseRuns false rest

/-- `sanitize_filename`. -/
def sanitize_filename (filename : String) : String :=
  if pyStrip isSpaceChar filename.data = [] then "unknown_file"
  else
    let f0 := pyStrip isSpaceChar filename.data
    let f1 := f0.filter (fun c => ¬ isInvalidFsChar c)
    let f2 := f1.filter (fun c => isWordChar c || isSpaceChar c || c == '-')
    let f3 := collapseRuns false f2
    let result := (pyStrip (fun c => c == '-') f3).take 100
    if result = [] then "unknown_file" else ⟨result⟩

/-! ## Batch/session controller -/

/-- One entry of `playlist_batch.json` (`added_at`/`processed_at`
timestamps elided). -/
structure PlaylistEntry where
  name : String
  url : String
  status : String
  tracks_count : Nat
  success_count : Nat
  error : Option String
deriving Repr, DecidableEq

/-- Persisted `PlaylistBatch` state: ordered job list plus cursor. -/
structure PlaylistBatch where
  playlists : List PlaylistEntry
  current_playlist_index : Nat
deriving Repr, DecidableEq

/-- `PlaylistBatch.add_playlist`. -/
def add_playlist (b : PlaylistBatch) (name url : String) : PlaylistBatch :=
  { b with playlists := b.playlists ++
      [{ name := sanitize_filename name, url := trimStr url, status := "pending",
         tracks_count := 0, success_count := 0, error := none }] }

/-- `PlaylistBatch.mark_playlist_completed`: update the entry at the
cursor (status `completed` when no error, else `failed`) and advance the
cursor; out-of-range cursors do nothing. -/
def mark_playlist_completed (b : PlaylistBatch) (tracks_count success_count : Nat)
    (error : Option String) : PlaylistBatch :=
  match b.playlists.get? b.current_playlist_index with
  | none => b
  | some entry =>
    { playlists := b.playlists.set b.current_playlist_index
        { entry with
          status := if error = none then "completed" else "failed",
          tracks_count := tracks_count, success_count := success_count, error := error },
      current_playlist_index := b.current_playlist_index + 1 }

/-! ## Cooperative cancellation and the per-item download loop

The `DownloadController` flag is set asynchronously by the command thread;
it is modelled by the clock tick `cancelAt` at which the user cancels.
Every suspension point reads the clock and advances it, so cancellation
can arrive between any two checks.  Pausing only delays the same
observations (`check_pause` spin-waits until resumed or cancelled), so the
pause state is elided and `check_pause` returns the negated cancellation
flag. -/

structure DownloadController where
  cancelAt : Option Nat
deriving Repr, DecidableEq

def is_cancelled (ctl : DownloadController) (t : Nat) : Bool :=
  match ctl.cancelAt with
  | none => false
  | some k => k ≤ t

def check_pause (ctl : DownloadController) (t : Nat) : Bool := ! is_cancelled ctl t

/-- Outcome of one `yt_dlp` search/download attempt, supplied by the
network oracle: a search hit (with whether the fetched file appears), an
empty search, or a raised exception. -/
inductive NetOut where
  | hit (fileFound : Bool)
  | miss
  | raise (msg : String)
deriving Repr, DecidableEq

/-- One download result as appended to `download_log` (fields not read by
any claim are elided). -/
structure DlResult where
  status : String
  error : Option String
  song_id : String
deriving Repr, DecidableEq

def cancelledResult (song_id : String) : DlResult :=
  { status := "cancelled", error := some "Download cancelled by user", song_id }

/-- The retry loop of `search_and_download_audio_smart` (lines 1075-1149):
a cancellation check before each attempt and another between search and
fetch; errors are recorded and retried. -/
def attemptLoop (ctl : DownloadController) (net : Nat → NetOut) (song_id : String) :
    Nat → Option String → Nat → Nat → DlResult × Nat
  | 0, err, _, t => ({ status := "failed", error := err, song_id }, t)
  | remaining + 1, err, attempt, t =>
    if ¬ check_pause ctl t then (cancelledResult song_id, t + 1)
    else match net attempt with
      | .miss => attemptLoop ctl net song_id remaining
          (some "No search results found") (attempt + 1) (t + 1)
      | .raise msg => attemptLoop ctl net song_id remaining (some msg) (attempt + 1) (t + 1)
      | .hit fileFound =>
        if ¬ check_pause ctl (t + 1) then (cancelledResult song_id, t + 2)
        else if fileFound then ({ status := "success", error := err, song_id }, t + 2)
        else attemptLoop ctl net song_id remaining err (attempt + 1) (t + 2)

/-- `search_and_download_audio_smart`.  `hasConsolidatedFile` is the
`existing_song_path.exists()` probe. -/
def search_and_download_audio_smart (ctl : DownloadController) (net : Nat → NetOut)
    (hasConsolidatedFile : Bool) (track : TrackRec) (t : Nat) : DlResult × Nat :=
  if ¬ check_pause ctl t then (cancelledResult track.song_id, t + 1)
  else if track.skip_download ∧ hasConsolidatedFile then
    ({ status := "existing", error := none, song_id := track.song_id }, t + 1)
  else
    let v := validate_track_data track.info
    if ¬ v.1 then
      ({ status := "skipped", error := some ("Invalid track data: " ++ v.2),
         song_id := track.song_id }, t + 1)
    else if sanitize_filename (track.info.track_name ++ " - " ++ track.info.artists_string)
        = "unknown_file" then
      ({ status := "failed", error := some "Could not create valid filename",
         song_id := track.song_id }, t + 1)
    else attemptLoop ctl net track.song_id Config.MAX_RETRIES none 0 (t + 1)

/-- State threaded through the per-track loop of `process_single_playlist`
(phase 3). -/
structure LoopSt where
  m : Manager
  c : Consolidator
  download_log : List DlResult
  successful_downloads : Nat
  failed_downloads : Nat
  skipped_downloads : Nat
  existing_reused : Nat
  cancelled_downloads : Nat
  t : Nat
deriving Repr, DecidableEq

/-- Result selection for one track of the phase-3 loop: reuse an existing
song (lines 1515-1529), run the smart download when the batch was approved,
or record a batch skip.  The second component is the advanced clock, the
third the extra `existing_reused` increment of line 1529. -/
def trackResult (ctl : DownloadController) (net : Nat → NetOut) (approved : Bool)
    (hasFile : String → Bool) (track : TrackRec) (t0 : Nat) : DlResult × Nat × Nat :=
  if track.skip_download then
    ({ status := "existing", error := none, song_id := track.song_id }, t0, 1)
  else if approved then
    let r := search_and_download_audio_smart ctl net (hasFile track.song_id) track t0
    (r.1, r.2, 0)
  else
    ({ status := "skipped", error := some "Download skipped by user for batch",
        song_id := track.song_id }, t0, 0)

/-- Bookkeeping for one processed track: append the result to the log,
upsert into the consolidator regardless of download status, and update the
per-status counters. -/
def stepLoopSt (st : LoopSt) (track : TrackRec) (pre : DlResult × Nat × Nat) : LoopSt :=
  let result := pre.1
  let mc := add_song_to_playlist st.m st.c track.song_id track.info result.status
  { m := mc.1, c := mc.2,
    download_log := st.download_log ++ [result],
    successful_downloads :=
      st.successful_downloads + (if result.status = "success" then 1 else 0),
    existing_reused := st.existing_reused + pre.2.2 +
      (if result.status = "existing" then 1 else 0),
    skipped_downloads :=
      st.skipped_downloads + (if result.status = "skipped" then 1 else 0),
    cancelled_downloads :=
      st.cancelled_downloads + (if result.status = "cancelled" then 1 else 0),
    failed_downloads := st.failed_downloads +
      (if result.status = "success" ∨ result.status = "existing" ∨
          result.status = "skipped" ∨ result.status = "cancelled" then 0 else 1),
    t := pre.2.1 }

/-- Per-track loop of `process_single_playlist` (lines 1488-1591): check
cancellation at the top, obtain a result (reuse / smart download / batch
skip), log it, upsert into the consolidator, update the counters, and stop
on a cancelled result. -/
def processTracks (ctl : DownloadController) (net : Nat → NetOut) (approved : Bool)
    (hasFile : String → Bool) : List TrackRec → LoopSt → LoopSt
  | [], st => st
  | track :: rest, st =>
    if is_cancelled ctl st.t then st
    else if ¬ check_pause ctl (st.t + 1) then st
    else
      let pre := trackResult ctl net approved hasFile track (st.t + 2)
      let st' := stepLoopSt st track pre
      if pre.1.status = "cancelled" then st'
      else processTracks ctl net approved hasFile rest st'

/-- Return value of `process_single_playlist` (the summary dictionary plus
the artefacts the claims inspect: the saved catalog, the skip log and the
download log). -/
structure JobResult where
  disk : Disk
  skips : List SkipEntry
  download_log : List DlResult
  tracks_count : Nat
  success_count : Nat
  failed_count : Nat
  cancelled_count : Nat
  error : Option String
deriving Repr, DecidableEq

/-- `process_single_playlist`: capture, extract, per-track download loop,
consolidate and save.  Early error returns (nothing captured, no valid
tracks) leave the catalog untouched; otherwise phase 4 saves even after a
mid-loop cancellation. -/
def process_single_playlist (ctl : DownloadController) (net : Nat → NetOut)
    (approved : Bool) (hasFile : String → Bool) (d : Disk) (events : List RawEvent)
    (playlist_name : String) : JobResult :=
  let m0 := load_existing_database d.songs
  let items := capture_requests events
  if items = [] then
    { disk := d, skips := [], download_log := [], tracks_count := 0, success_count := 0,
      failed_count := 0, cancelled_count := 0, error := some "No playlist items captured" }
  else
    let ex := extract_enhanced_track_info m0 items
    if ex.1 = [] then
      { disk := d, skips := ex.2, download_log := [], tracks_count := 0, success_count := 0,
        failed_count := 0, cancelled_count := 0, error := some "No valid tracks extracted" }
    else
      let st := processTracks ctl net approved hasFile ex.1
        { m := m0, c := { playlist_name, playlist_songs := [] }, download_log := [],
          successful_downloads := 0, failed_downloads := 0, skipped_downloads := 0,
          existing_reused := 0, cancelled_downloads := 0, t := 0 }
      let pm : PlaylistMeta :=
        { name := playlist_name, total_tracks := ex.1.length, songs := st.c.playlist_songs }
      { disk := save_consolidated_metadata st.m st.c pm d,
        skips := ex.2, download_log := st.download_log,
        tracks_count := ex.1.length,
        success_count := st.successful_downloads + st.existing_reused,
        failed_count := st.failed_downloads,
        cancelled_count := st.cancelled_downloads,
        error := none }

/-- One full pipeline run of a capture job in the metadata schedule (no
cancellation, batch download not approved); this is the code path taken
when the user declines downloads for the batch. -/
def runJob (d : Disk) (events : List RawEvent) (playlist_name : String) : JobResult :=
  process_single_playlist ⟨none⟩ (fun _ => .miss) false (fun _ => false) d events
    playlist_name

/-- Per-playlist marking in `run_batch_processing_mode` (lines 1868-1886):
a job error marks `failed` with that error; a cancelled run marks with
error `Cancelled by user` (hence status `failed`); otherwise `completed`. -/
def batch_mark_after (b : PlaylistBatch) (r : JobResult) (ctl_cancelled : Bool) :
    PlaylistBatch :=
  match r.error with
  | some e => mark_playlist_completed b 0 0 (some e)
  | none =>
    if r.cancelled_count > 0 ∨ ctl_cancelled then
      mark_playlist_completed b r.tracks_count r.success_count (some "Cancelled by user")
    else mark_playlist_completed b r.tracks_count r.success_count none

/-- The resume loop of `run_batch_processing_mode` (lines 1826-1890) over
the index range starting at the persisted cursor: non-pending entries are
skipped, pending ones are processed and marked via
`mark_playlist_completed` (which writes at the cursor).  Each processed
job yields `(tracks_count, success_count, error)` through the oracle
`results`; the list of processed indices is returned alongside.
Cancellation and the interactive skip prompt, which only stop the loop
early or mark an entry without processing, are modelled separately. -/
def run_batch_loop (results : Nat → Nat × Nat × Option String) :
    List Nat → PlaylistBatch → List Nat → PlaylistBatch × List Nat
  | [], b, processed => (b, processed)
  | i :: rest, b, processed =>
    match b.playlists.get? i with
    | none => run_batch_loop results rest b processed
    | some playlist =>
      if playlist.status ≠ "pending" then run_batch_loop results rest b processed
      else
        let r := results i
        run_batch_loop results rest
          (mark_playlist_completed b r.1 r.2.1 r.2.2) (processed ++ [i])

def run_batch_processing_mode (results : Nat → Nat × Nat × Option String)
    (b : PlaylistBatch) : PlaylistBatch × List Nat :=
  run_batch_loop results
    (List.range' b.current_playlist_index (b.playlists.length - b.current_playlist_index))
    b []

/-! ## Auxiliary notions used by the verification -/

/-- `x` when defined, else `y` (first-defined choice on options). -/
def orElseOpt {α : Type} (x y : Option α) : Option α :=
  match x with
  | some v => some v
  | none => y

/-- Last-write-wins accumulator: the value of the last element of `l`
whose `pick` is defined, else `init`. -/
def pickFold {β α : Type} (pick : β → Option α) (l : List β) (init : Option α) :
    Option α :=
  l.foldl (fun r e => match pick e with | some v => some v | none => r) init

/-- The URI-index registration performed for one songs-table entry. -/
def uriReg (e : String × SongInfo) : Option (String × String) :=
  if e.2.metadata.track_uri ≠ "" then some (e.2.metadata.track_uri, e.1) else none

/-- The name+artist-index registration performed for one songs-table
entry. -/
def keyReg (e : String × SongInfo) : Option (String × String) :=
  if normStr e.2.metadata.track_name ≠ "" ∧ normStr e.2.metadata.artists_string ≠ "" then
    some (normStr e.2.metadata.track_name ++ "|" ++ normStr e.2.metadata.artists_string, e.1)
  else none

/-- Restriction of a registration to one index key `q`. -/
def regPick {β α : Type} (f : β → Option (String × α)) (q : String) (e : β) :
    Option α :=
  match f e with
  | some kv => if kv.1 = q then some kv.2 else none
  | none => none

/-- One registration folded into a dictionary. -/
def regStep {β α : Type} (f : β → Option (String × α)) (acc : List (String × α))
    (e : β) : List (String × α) :=
  match f e with
  | some kv => dictInsert acc kv.1 kv.2
  | none => acc

/-- Fold of registrations into a dictionary (the shape shared by the two
load-time indexes and the mapping rebuild of `save`). -/
def regFold {β α : Type} (f : β → Option (String × α)) (l : List β)
    (acc : List (String × α)) : List (String × α) :=
  l.foldl (regStep f) acc

/-- The mapping-table registration performed by `save_consolidated_metadata`
for one unioned song. -/
def mapReg (e : String × SongInfo) : Option (String × List String) :=
  if e.2.playlists ≠ [] then some (e.1, e.2.playlists) else none

/-- Status of the batch entry at index `i`. -/
def statusAt (b : PlaylistBatch) (i : Nat) : Option String :=
  (b.playlists.get? i).map PlaylistEntry.status

/-- The first index at or after the cursor whose entry is pending. -/
def firstPendingFrom (b : PlaylistBatch) : Option Nat :=
  (List.range' b.current_playlist_index (b.playlists.length - b.current_playlist_index)).find?
    (fun i => statusAt b i = some "pending")

/-- Entries of `a` and `b` share key and metadata snapshot (playlists and
download status may differ). -/
def KM (a b : String × SongInfo) : Prop :=
  a.1 = b.1 ∧ a.2.metadata = b.2.metadata

/-- Invariant of the songs table across one consolidation run against the
table `base` it was loaded from: unique keys, and the table splits into
the base entries (keys and metadata untouched, in place) followed by newly
minted entries that all belong to playlist `p`. -/
def ConsInv (p : String) (base L : List (String × SongInfo)) : Prop :=
  (dictKeys L).Nodup ∧
    ∃ old new, L = old ++ new ∧ List.Forall₂ KM base old ∧
      ∀ e ∈ new, p ∈ e.2.playlists

/-- The table has an entry for `sid` whose membership list contains `p`. -/
def HasP (L : List (String × SongInfo)) (p sid : String) : Prop :=
  ∃ s, dictGet L sid = some s ∧ p ∈ s.playlists

/-- One ingest of an already-validated record into playlist `p`: find or
mint the id with the resolver, then upsert through
`add_song_to_playlist` (the per-playlist `playlist_songs` accumulator,
which does not feed back into the songs table, is dropped). -/
def ingestTrack (p : String) (m : Manager) (t : TrackInfo) : Manager :=
  (add_song_to_playlist m { playlist_name := p, playlist_songs := [] }
    (resolve_song_id m t) t "success").1

/-! ## Concrete scenario data for the examples -/

/-- An empty catalog on disk. -/
def emptyDisk : Disk := { songs := [], playlistsT := [], mapping := [] }

def demoItem1 : RawItem :=
  { isTrackWrapper := true, name := "Track One", uri := "spotify:track:one",
    artistEntries := [("Artist A", "spotify:artist:a")], albumName := "Album" }

def demoItem2 : RawItem :=
  { isTrackWrapper := true, name := "Track Two", uri := "spotify:track:two",
    artistEntries := [("Artist B", "spotify:artist:b")], albumName := "Album" }

/-- One captured playlist page holding the two demo items. -/
def demoEvents : List RawEvent :=
  [{ reqId := "r1", urlHasTarget := true, hasResponse := true,
     payload := some { isPlaylistItemsPage := true, items := [demoItem1, demoItem2] } }]

/-- A capture job run with downloads approved and a cancellation arriving
at clock tick 2, i.e. inside the first item's download. -/
def demoCancelRun : JobResult :=
  process_single_playlist ⟨some 2⟩ (fun _ => NetOut.hit true) true (fun _ => false)
    emptyDisk demoEvents "MyList"

/-- A one-job batch whose single entry is pending at cursor 0 (entry
fields: name, url, status, tracks_count, success_count, error). -/
def demoBatch : PlaylistBatch :=
  ⟨[⟨"MyList", "u", "pending", 0, 0, none⟩], 0⟩

/-- A two-job batch, both entries pending, with the persisted cursor at 1
(as after a crash that lost the first entry's mark but kept the cursor). -/
def demoBatch2 : PlaylistBatch :=
  ⟨[⟨"A", "ua", "pending", 0, 0, none⟩, ⟨"B", "ub", "pending", 0, 0, none⟩], 1⟩

/-- A result oracle for batch runs: every processed job reports success. -/
def demoResults : Nat → Nat × Nat × Option String := fun _ => (1, 1, none)

/-- A track wrapper whose name is whitespace only: its extracted track
name is empty, so the validation gate rejects it. -/
def demoBadItem : RawItem :=
  { isTrackWrapper := true, name := "   ", uri := "spotify:track:bad",
    artistEntries := [("X", "spotify:artist:x")], albumName := "Al" }

/-- An event stream whose single page carries a valid item and the
whitespace-named one. -/
def demoEventsWithBad : List RawEvent :=
  [{ reqId := "r1", urlHasTarget := true, hasResponse := true,
     payload := some { isPlaylistItemsPage := true, items := [demoItem1, demoBadItem] } }]

/-- The same stream with the whitespace-named item removed. -/
def demoEventsClean : List RawEvent :=
  [{ reqId := "r1", urlHasTarget := true, hasResponse := true,
     payload := some { isPlaylistItemsPage := true, items := [demoItem1] } }]

/-- Two raw items carrying the same URI with different names. -/
def demoUriA : RawItem :=
  { isTrackWrapper := true, name := "a", uri := "u",
    artistEntries := [("b", "ub")], albumName := "al" }

def demoUriC : RawItem :=
  { isTrackWrapper := true, name := "c", uri := "u",
    artistEntries := [("b", "ub")], albumName := "al" }

/-- Two track records resolving to distinct song ids, used to drive the
download loop into a mid-batch cancellation. -/
def demoTrack1 : TrackRec :=
  ⟨⟨"T1", ["A1"], "A1", "Alb", "spotify:track:t1"⟩, "s1", false⟩

def demoTrack2 : TrackRec :=
  ⟨⟨"T2", ["A2"], "A2", "Alb", "spotify:track:t2"⟩, "s2", false⟩

/-- A fresh phase-3 loop state over an empty catalog. -/
def demoLoopSt : LoopSt :=
  { m := ⟨[], [], []⟩, c := { playlist_name := "P1", playlist_songs := [] },
    download_log := [], successful_downloads := 0, failed_downloads := 0,
    skipped_downloads := 0, existing_reused := 0, cancelled_downloads := 0, t := 0 }

/-- The track "Song A" by "Artist X" of the spec's worked example. -/
def demoSongA : TrackInfo :=
  { track_name := "Song A", artists := ["Artist X"], artists_string := "Artist X",
    album_name := "Album 1", track_uri := "spotify:track:sa" }

/-! ## Lemmas: dictionary operations -/

theorem dictKeys_nil {α : Type} : dictKeys ([] : List (String × α)) = [] := rfl

theorem dictKeys_cons {α : Type} (e : String × α) (l : List (String × α)) :
    dictKeys (e :: l) = e.1 :: dictKeys l := rfl

theorem dictKeys_append {α : Type} (A B : List (String × α)) :
    dictKeys (A ++ B) = dictKeys A ++ dictKeys B := List.map_append _ _ _

theorem dictGet_dictInsert {α : Type} (l : List (String × α)) (k q : String) (v : α) :
    dictGet (dictInsert l k v) q = if q = k then some v else dictGet l q := by
  induction l with
  | nil =>
    by_cases h : q = k
    · simp [dictInsert, dictGet, h]
    · have hkq : ¬ k = q := fun hh => h hh.symm
      simp [dictInsert, dictGet, h, hkq]
  | cons e rest ih =>
    by_cases he : e.1 = k
    · by_cases hq : q = k
      · simp [dictInsert, dictGet, he, hq]
      · have hkq : ¬ k = q := fun hh => hq hh.symm
        have heq : ¬ e.1 = q := fun hh => hq ((he.symm.trans hh).symm)
        simp [dictInsert, dictGet, he, hq, hkq, heq]
    · by_cases hq : e.1 = q
      · have hqk : ¬ q = k := fun h2 => he (hq.trans h2)
        simp [dictInsert, dictGet, he, hq, hqk]
      · simp [dictInsert, dictGet, he, hq, ih]

theorem dictGet_eq_none_iff {α : Type} {l : List (String × α)} {k : String} :
    dictGet l k = none ↔ k ∉ dictKeys l := by
  induction l with
  | nil => simp [dictGet, dictKeys]
  | cons e rest ih =>
    by_cases he : e.1 = k
    · simp [dictGet, dictKeys_cons, he]
    · have hk : ¬ k = e.1 := fun hh => he hh.symm
      simp [dictGet, dictKeys_cons, he, hk, ih]

theorem mem_of_dictGet {α : Type} {l : List (String × α)} {k : String} {v : α}
    (h : dictGet l k = some v) : (k, v) ∈ l := by
  induction l with
  | nil => simp [dictGet] at h
  | cons e rest ih =>
    by_cases he : e.1 = k
    · simp [dictGet, he] at h
      have : e = (k, v) := by
        cases e with
        | mk e1 e2 => simp at he h ⊢; exact ⟨he, h⟩
      rw [← this]
      exact List.mem_cons_self _ _
    · simp [dictGet, he] at h
      exact List.mem_cons_of_mem _ (ih h)

theorem mem_keys_of_dictGet {α : Type} {l : List (String × α)} {k : String} {v : α}
    (h : dictGet l k = some v) : k ∈ dictKeys l :=
  List.mem_map_of_mem Prod.fst (mem_of_dictGet h)

theorem dictGet_of_mem_nodup {α : Type} {l : List (String × α)}
    (hn : (dictKeys l).Nodup) {k : String} {v : α} (hm : (k, v) ∈ l) :
    dictGet l k = some v := by
  induction l with
  | nil => simp at hm
  | cons e rest ih =>
    rw [dictKeys_cons, List.nodup_cons] at hn
    rcases List.mem_cons.mp hm with h | h
    · rw [← h]; simp [dictGet]
    · have hk : k ∈ dictKeys rest := List.mem_map_of_mem Prod.fst h
      have he : ¬ e.1 = k := fun hek => hn.1 (hek ▸ hk)
      simp [dictGet, he]
      exact ih hn.2 h

theorem dictInsert_of_not_mem {α : Type} {l : List (String × α)} {k : String}
    (h : k ∉ dictKeys l) (v : α) : dictInsert l k v = l ++ [(k, v)] := by
  induction l with
  | nil => simp [dictInsert]
  | cons e rest ih =>
    rw [dictKeys_cons] at h
    have h1 : ¬ e.1 = k := fun hh => h (by rw [hh]; exact List.mem_cons_self _ _)
    have h2 : k ∉ dictKeys rest := fun hh => h (List.mem_cons_of_mem _ hh)
    simp [dictInsert, h1, ih h2]

theorem dictKeys_dictInsert_of_mem {α : Type} {l : List (String × α)} {k : String}
    (h : k ∈ dictKeys l) (v : α) : dictKeys (dictInsert l k v) = dictKeys l := by
  induction l with
  | nil => simp [dictKeys] at h
  | cons e rest ih =>
    by_cases he : e.1 = k
    · simp [dictInsert, he, dictKeys_cons]
    · rw [dictKeys_cons] at h
      rcases List.mem_cons.mp h with h | h
      · exact absurd h.symm he
      · simp [dictInsert, he, dictKeys_cons, ih h]

theorem dictKeys_nodup_dictInsert {α : Type} {l : List (String × α)} {k : String}
    (h : (dictKeys l).Nodup) (v : α) : (dictKeys (dictInsert l k v)).Nodup := by
  by_cases hm : k ∈ dictKeys l
  · rw [dictKeys_dictInsert_of_mem hm]; exact h
  · rw [dictInsert_of_not_mem hm, dictKeys_append, dictKeys_cons, dictKeys_nil]
    exact List.Nodup.append h (List.nodup_singleton k)
      (by simpa [List.disjoint_right] using hm)

theorem dictGet_append {α : Type} (A B : List (String × α)) (k : String) :
    dictGet (A ++ B) k =
      match dictGet A k with
      | some v => some v
      | none => dictGet B k := by
  induction A with
  | nil => simp [dictGet]
  | cons e rest ih =>
    by_cases he : e.1 = k <;> simp [dictGet, he, ih]

theorem dictInsert_append_left {α : Type} {A : List (String × α)} {k : String}
    (h : k ∈ dictKeys A) (B : List (String × α)) (v : α) :
    dictInsert (A ++ B) k v = dictInsert A k v ++ B := by
  induction A with
  | nil => simp [dictKeys] at h
  | cons e rest ih =>
    by_cases he : e.1 = k
    · simp [dictInsert, he]
    · rw [dictKeys_cons] at h
      rcases List.mem_cons.mp h with h | h
      · exact absurd h.symm he
      · simp [dictInsert, he, ih h]

theorem dictInsert_append_right {α : Type} {A : List (String × α)} {k : String}
    (h : k ∉ dictKeys A) (B : List (String × α)) (v : α) :
    dictInsert (A ++ B) k v = A ++ dictInsert B k v := by
  induction A with
  | nil => simp
  | cons e rest ih =>
    rw [dictKeys_cons] at h
    have h1 : ¬ e.1 = k := fun hh => h (by rw [hh]; exact List.mem_cons_self _ _)
    have h2 : k ∉ dictKeys rest := fun hh => h (List.mem_cons_of_mem _ hh)
    simp [dictInsert, h1, ih h2]

theorem mem_dictInsert {α : Type} {l : List (String × α)} {k : String} {v : α}
    {e : String × α} (h : e ∈ dictInsert l k v) : e ∈ l ∨ e = (k, v) := by
  induction l with
  | nil => simp [dictInsert] at h; right; exact h
  | cons f rest ih =>
    by_cases hf : f.1 = k
    · simp [dictInsert, hf] at h
      rcases h with h | h
      · right; exact h
      · left; exact List.mem_cons_of_mem _ h
    · simp [dictInsert, hf] at h
      rcases h with h | h
      · left; simp [h]
      · rcases ih h with h2 | h2
        · left; exact List.mem_cons_of_mem _ h2
        · right; exact h2

theorem foldl_dictInsert_aligned {α : Type} :
    ∀ (X : List (String × α)) {A P : List (String × α)},
      List.Forall₂ (fun a b => a.1 = b.1) A P →
      (dictKeys X ++ dictKeys P).Nodup →
      P.foldl (fun acc e => dictInsert acc e.1 e.2) (X ++ A) = X ++ P := by
  intro X A P h
  induction h generalizing X with
  | nil => intro _; simp
  | @cons a pe A' P' ha _ ih =>
    intro hn
    rw [dictKeys_cons] at hn
    have hdisj := (List.nodup_append.mp hn).2.2
    have hpe : pe.1 ∉ dictKeys X := by
      intro hmem
      exact (List.disjoint_left.mp hdisj) hmem (List.mem_cons_self _ _)
    simp only [List.foldl_cons]
    rw [dictInsert_append_right hpe]
    have hins : dictInsert (a :: A') pe.1 pe.2 = pe :: A' := by
      simp [dictInsert, ha]
    rw [hins]
    have hX : X ++ pe :: A' = (X ++ [pe]) ++ A' := by simp
    rw [hX]
    have hn' : (dictKeys (X ++ [pe]) ++ dictKeys P').Nodup := by
      rw [dictKeys_append, dictKeys_cons, dictKeys_nil, List.append_assoc,
        List.singleton_append]
      exact hn
    rw [ih (X ++ [pe]) hn']
    simp

theorem dictUpdate_fresh {α : Type} :
    ∀ (N B : List (String × α)), (∀ e ∈ N, e.1 ∉ dictKeys B) → (dictKeys N).Nodup →
      dictUpdate B N = B ++ N := by
  intro N
  induction N with
  | nil => intro B _ _; simp [dictUpdate]
  | cons e rest ih =>
    intro B hfresh hn
    rw [dictKeys_cons, List.nodup_cons] at hn
    have step : dictUpdate B (e :: rest) = dictUpdate (B ++ [(e.1, e.2)]) rest := by
      simp only [dictUpdate, List.foldl_cons]
      rw [dictInsert_of_not_mem (hfresh e (List.mem_cons_self e rest)) e.2]
    have h1 : ∀ f ∈ rest, f.1 ∉ dictKeys (B ++ [(e.1, e.2)]) := by
      intro f hf
      rw [dictKeys_append]
      intro hmem
      rcases List.mem_append.mp hmem with hmem | hmem
      · exact hfresh f (List.mem_cons_of_mem _ hf) hmem
      · rw [dictKeys_cons, dictKeys_nil] at hmem
        have hfe : f.1 = e.1 := by simpa using hmem
        exact hn.1 (hfe ▸ List.mem_map_of_mem Prod.fst hf)
    rw [step, ih _ h1 hn.2]
    simp

theorem dictUpdate_nil {α : Type} {l : List (String × α)}
    (h : (dictKeys l).Nodup) : dictUpdate [] l = l := by
  simpa using dictUpdate_fresh l [] (by simp [dictKeys]) h

theorem dictUpdate_aligned {α : Type} {A P : List (String × α)}
    (h : List.Forall₂ (fun a b => a.1 = b.1) A P) (hn : (dictKeys P).Nodup) :
    dictUpdate A P = P := by
  have := foldl_dictInsert_aligned ([] : List (String × α)) h
    (by rw [dictKeys_nil, List.nil_append]; exact hn)
  simpa [dictUpdate] using this

/-! ## Lemmas: last-write-wins folds -/

theorem pickFold_nil {β α : Type} (pick : β → Option α) (init : Option α) :
    pickFold pick [] init = init := rfl

theorem pickFold_cons {β α : Type} (pick : β → Option α) (e : β) (l : List β)
    (init : Option α) :
    pickFold pick (e :: l) init =
      pickFold pick l (match pick e with | some v => some v | none => init) := rfl

theorem pickFold_init {β α : Type} (pick : β → Option α) (l : List β)
    (init : Option α) :
    pickFold pick l init =
      match pickFold pick l none with
      | some v => some v
      | none => init := by
  induction l generalizing init with
  | nil => simp [pickFold]
  | cons e rest ih =>
    rw [pickFold_cons, pickFold_cons]
    cases h : pick e with
    | none => simp only; exact ih init
    | some v =>
      simp only
      rw [ih (some v)]
      cases pickFold pick rest none <;> rfl

theorem pickFold_append {β α : Type} (pick : β → Option α) (A B : List β)
    (init : Option α) :
    pickFold pick (A ++ B) init = pickFold pick B (pickFold pick A init) := by
  simp [pickFold, List.foldl_append]

theorem pickFold_eq_init {β α : Type} {pick : β → Option α} {l : List β}
    (h : ∀ e ∈ l, pick e = none) (init : Option α) : pickFold pick l init = init := by
  induction l with
  | nil => rfl
  | cons e rest ih =>
    rw [pickFold_cons, h e (List.mem_cons_self _ _)]
    exact ih (fun f hf => h f (List.mem_cons_of_mem _ hf))

theorem pickFold_some_mem {β α : Type} {pick : β → Option α} {l : List β} {v : α}
    (h : pickFold pick l none = some v) : ∃ e ∈ l, pick e = some v := by
  induction l with
  | nil => simp [pickFold] at h
  | cons e rest ih =>
    rw [pickFold_cons] at h
    rw [pickFold_init] at h
    cases h2 : pickFold pick rest none with
    | some w =>
      rw [h2] at h
      simp only at h
      obtain ⟨f, hf, hp⟩ := ih (h2.trans h)
      exact ⟨f, List.mem_cons_of_mem _ hf, hp⟩
    | none =>
      rw [h2] at h
      cases h3 : pick e with
      | none => rw [h3] at h; simp at h
      | some w =>
        rw [h3] at h
        simp only at h
        exact ⟨e, List.mem_cons_self _ _, h3.trans h⟩

theorem pickFold_forall₂ {β γ α : Type} {p1 : β → Option α} {p2 : γ → Option α}
    {l1 : List β} {l2 : List γ}
    (h : List.Forall₂ (fun a b => p1 a = p2 b) l1 l2) (init : Option α) :
    pickFold p1 l1 init = pickFold p2 l2 init := by
  induction h generalizing init with
  | nil => rfl
  | @cons a b l1' l2' hab _ ih =>
    rw [pickFold_cons, pickFold_cons, hab]
    exact ih _

theorem regFold_cons {β α : Type} (f : β → Option (String × α)) (e : β)
    (l : List β) (acc : List (String × α)) :
    regFold f (e :: l) acc = regFold f l (regStep f acc e) := rfl

theorem dictGet_regFold {β α : Type} (f : β → Option (String × α)) (l : List β)
    (acc : List (String × α)) (q : String) :
    dictGet (regFold f l acc) q = pickFold (regPick f q) l (dictGet acc q) := by
  induction l generalizing acc with
  | nil => rfl
  | cons e rest ih =>
    rw [pickFold_cons, regFold_cons]
    cases h : f e with
    | none =>
      have h1 : regStep f acc e = acc := by simp [regStep, h]
      rw [h1, ih acc]
      congr 1
      simp [regPick, h]
    | some kv =>
      have h1 : regStep f acc e = dictInsert acc kv.1 kv.2 := by simp [regStep, h]
      rw [h1, ih _]
      congr 1
      rw [dictGet_dictInsert]
      by_cases hq : q = kv.1
      · simp [regPick, h, hq]
      · have hkvq : ¬ kv.1 = q := fun hh => hq hh.symm
        simp [regPick, h, hq, hkvq]

/-! ## Lemmas: component behaviour of `registerSong` and
`add_song_to_playlist` -/

theorem register_songs (m : Manager) (e : String × SongInfo) :
    (registerSong m e.1 e.2).existing_songs = dictInsert m.existing_songs e.1 e.2 := by
  unfold registerSong
  dsimp only
  split <;> split <;> rfl

theorem register_uri (m : Manager) (e : String × SongInfo) :
    (registerSong m e.1 e.2).uri_to_song_id = regStep uriReg m.uri_to_song_id e := by
  unfold registerSong uriReg regStep
  dsimp only
  split <;> split <;> rfl

theorem register_key (m : Manager) (e : String × SongInfo) :
    (registerSong m e.1 e.2).name_artist_to_song_id =
      regStep keyReg m.name_artist_to_song_id e := by
  unfold registerSong keyReg regStep
  dsimp only
  split <;> split <;> rfl

theorem load_fold_songs :
    ∀ (db : List (String × SongInfo)) (m : Manager),
      (db.foldl (fun m e => registerSong m e.1 e.2) m).existing_songs =
        dictUpdate m.existing_songs db := by
  intro db
  induction db with
  | nil => intro m; rfl
  | cons e rest ih =>
    intro m
    rw [List.foldl_cons, ih]
    show dictUpdate (registerSong m e.1 e.2).existing_songs rest = _
    rw [register_songs]
    rfl

theorem load_fold_uri :
    ∀ (db : List (String × SongInfo)) (m : Manager),
      (db.foldl (fun m e => registerSong m e.1 e.2) m).uri_to_song_id =
        regFold uriReg db m.uri_to_song_id := by
  intro db
  induction db with
  | nil => intro m; rfl
  | cons e rest ih =>
    intro m
    rw [List.foldl_cons, ih]
    show regFold uriReg rest (registerSong m e.1 e.2).uri_to_song_id = _
    rw [register_uri, regFold_cons]

theorem load_fold_key :
    ∀ (db : List (String × SongInfo)) (m : Manager),
      (db.foldl (fun m e => registerSong m e.1 e.2) m).name_artist_to_song_id =
        regFold keyReg db m.name_artist_to_song_id := by
  intro db
  induction db with
  | nil => intro m; rfl
  | cons e rest ih =>
    intro m
    rw [List.foldl_cons, ih]
    show regFold keyReg rest (registerSong m e.1 e.2).name_artist_to_song_id = _
    rw [register_key, regFold_cons]

theorem load_songs (db : List (String × SongInfo)) :
    (load_existing_database db).existing_songs = dictUpdate [] db :=
  load_fold_songs db ⟨[], [], []⟩

theorem load_uri (db : List (String × SongInfo)) :
    (load_existing_database db).uri_to_song_id = regFold uriReg db [] :=
  load_fold_uri db ⟨[], [], []⟩

theorem load_key (db : List (String × SongInfo)) :
    (load_existing_database db).name_artist_to_song_id = regFold keyReg db [] :=
  load_fold_key db ⟨[], [], []⟩

theorem load_songs_of_nodup {db : List (String × SongInfo)}
    (h : (dictKeys db).Nodup) : (load_existing_database db).existing_songs = db := by
  rw [load_songs, dictUpdate_nil h]

/-! ## Lemmas: `add_song_to_playlist` -/

theorem add_manager_noop {m : Manager} {c : Consolidator} {song_id : String}
    {t : TrackInfo} {ds : String} {s : SongInfo}
    (h : dictGet m.existing_songs song_id = some s)
    (hp : c.playlist_name ∈ s.playlists) :
    (add_song_to_playlist m c song_id t ds).1 = m := by
  simp [add_song_to_playlist, h, hp]

theorem add_manager_existing {m : Manager} {c : Consolidator} {song_id : String}
    {t : TrackInfo} {ds : String} {s : SongInfo}
    (h : dictGet m.existing_songs song_id = some s)
    (hp : c.playlist_name ∉ s.playlists) :
    (add_song_to_playlist m c song_id t ds).1 =
      { m with
        existing_songs :=
          dictInsert m.existing_songs song_id
            { s with playlists := s.playlists ++ [c.playlist_name] } } := by
  simp [add_song_to_playlist, h, hp]

theorem add_manager_new {m : Manager} {c : Consolidator} {song_id : String}
    {t : TrackInfo} {ds : String}
    (h : dictGet m.existing_songs song_id = none) :
    (add_song_to_playlist m c song_id t ds).1 =
      { existing_songs := dictInsert m.existing_songs song_id
          { metadata := t, playlists := [c.playlist_name], download_status := ds },
        uri_to_song_id := if t.track_uri ≠ "" then
            dictInsert m.uri_to_song_id t.track_uri song_id
          else m.uri_to_song_id,
        name_artist_to_song_id :=
          if normStr t.track_name ≠ "" ∧ normStr t.artists_string ≠ "" then
            dictInsert m.name_artist_to_song_id
              (normStr t.track_name ++ "|" ++ normStr t.artists_string) song_id
          else m.name_artist_to_song_id } := by
  simp only [add_song_to_playlist, h]
  split <;> split <;> rfl

theorem add_c_name (m : Manager) (c : Consolidator) (song_id : String)
    (t : TrackInfo) (ds : String) :
    (add_song_to_playlist m c song_id t ds).2.playlist_name = c.playlist_name := by
  unfold add_song_to_playlist
  dsimp only
  split <;> rfl

/-! ## Lemmas: the consolidation invariant -/

theorem forall₂_KM_refl (l : List (String × SongInfo)) : List.Forall₂ KM l l :=
  List.forall₂_same.mpr (fun _ _ => ⟨rfl, rfl⟩)

theorem KM_dictInsert {base old : List (String × SongInfo)}
    (h : List.Forall₂ KM base old) {sid : String} {s v : SongInfo}
    (hget : dictGet old sid = some s) (hmeta : v.metadata = s.metadata) :
    List.Forall₂ KM base (dictInsert old sid v) := by
  induction h with
  | nil => simp [dictGet] at hget
  | @cons a b base' old' hab hrest ih =>
    by_cases hb : b.1 = sid
    · have hrepl : dictInsert (b :: old') sid v = (sid, v) :: old' := by
        simp [dictInsert, hb]
      rw [hrepl]
      have hs : s = b.2 := by
        simp [dictGet, hb] at hget
        exact hget.symm
      refine List.Forall₂.cons ⟨hab.1.trans hb, ?_⟩ hrest
      rw [hmeta, hs, hab.2]
    · have hrepl : dictInsert (b :: old') sid v = b :: dictInsert old' sid v := by
        simp [dictInsert, hb]
      rw [hrepl]
      have hget' : dictGet old' sid = some s := by
        simpa [dictGet, hb] using hget
      exact List.Forall₂.cons hab (ih hget')

theorem consInv_add (p : String) {base : List (String × SongInfo)} {m : Manager}
    {c : Consolidator} (sid : String) (t : TrackInfo) (ds : String)
    (hc : c.playlist_name = p) (hInv : ConsInv p base m.existing_songs) :
    ConsInv p base (add_song_to_playlist m c sid t ds).1.existing_songs ∧
      HasP (add_song_to_playlist m c sid t ds).1.existing_songs p sid ∧
      (∀ q, HasP m.existing_songs p q →
        HasP (add_song_to_playlist m c sid t ds).1.existing_songs p q) := by
  cases hget : dictGet m.existing_songs sid with
  | some s =>
    by_cases hp : c.playlist_name ∈ s.playlists
    · rw [add_manager_noop hget hp]
      exact ⟨hInv, ⟨s, hget, hc ▸ hp⟩, fun q h => h⟩
    · rw [add_manager_existing hget hp]
      dsimp only
      obtain ⟨hnodup, old, new, hL, hrel, hnew⟩ := hInv
      constructor
      · constructor
        · exact dictKeys_nodup_dictInsert hnodup _
        · by_cases hmem : sid ∈ dictKeys old
          · refine ⟨dictInsert old sid
              { s with playlists := s.playlists ++ [c.playlist_name] }, new, ?_, ?_, hnew⟩
            · rw [hL, dictInsert_append_left hmem]
            · have hgo : dictGet old sid = some s := by
                rw [hL, dictGet_append] at hget
                cases hgo2 : dictGet old sid with
                | none => exact ((dictGet_eq_none_iff.mp hgo2) hmem).elim
                | some v =>
                  rw [hgo2] at hget
                  simp at hget
                  rw [hget]
              exact KM_dictInsert hrel hgo rfl
          · exfalso
            have hgo : dictGet old sid = none := dictGet_eq_none_iff.mpr hmem
            have hgn : dictGet new sid = some s := by
              rw [hL, dictGet_append, hgo] at hget
              exact hget
            exact hp (hc ▸ hnew _ (mem_of_dictGet hgn))
      · constructor
        · refine ⟨{ s with playlists := s.playlists ++ [c.playlist_name] }, ?_, ?_⟩
          · rw [dictGet_dictInsert]
            simp
          · simp [hc]
        · intro q hq
          obtain ⟨w, hw, hpw⟩ := hq
          by_cases hqs : q = sid
          · refine ⟨{ s with playlists := s.playlists ++ [c.playlist_name] }, ?_, ?_⟩
            · rw [dictGet_dictInsert, if_pos hqs]
            · have hws : w = s := by
                rw [hqs] at hw
                rw [hw] at hget
                injection hget
              dsimp only
              exact List.mem_append_left _ (hws ▸ hpw)
          · exact ⟨w, by rw [dictGet_dictInsert, if_neg hqs]; exact hw, hpw⟩
  | none =>
    rw [add_manager_new hget]
    dsimp only
    have hmem : sid ∉ dictKeys m.existing_songs := dictGet_eq_none_iff.mp hget
    obtain ⟨hnodup, old, new, hL, hrel, hnew⟩ := hInv
    refine ⟨⟨dictKeys_nodup_dictInsert hnodup _, ?_⟩, ?_, ?_⟩
    · refine ⟨old, new ++ [(sid,
        { metadata := t, playlists := [c.playlist_name], download_status := ds })], ?_, hrel, ?_⟩
      · rw [dictInsert_of_not_mem hmem, hL, List.append_assoc]
      · intro e he
        rcases List.mem_append.mp he with he | he
        · exact hnew e he
        · have : e = (sid,
              { metadata := t, playlists := [c.playlist_name], download_status := ds }) := by
            simpa using he
          rw [this]
          simp [hc]
    · refine ⟨{ metadata := t, playlists := [c.playlist_name], download_status := ds }, ?_, ?_⟩
      · rw [dictGet_dictInsert]
        simp
      · simp [hc]
    · intro q hq
      obtain ⟨w, hw, hpw⟩ := hq
      by_cases hqs : q = sid
      · rw [hqs] at hw
        rw [hw] at hget
        exact absurd hget (by simp)
      · exact ⟨w, by rw [dictGet_dictInsert, if_neg hqs]; exact hw, hpw⟩

/-! ## Lemmas: the phase-3 loop -/

theorem stepLoopSt_m (st : LoopSt) (track : TrackRec) (pre : DlResult × Nat × Nat) :
    (stepLoopSt st track pre).m =
      (add_song_to_playlist st.m st.c track.song_id track.info pre.1.status).1 := rfl

theorem stepLoopSt_c (st : LoopSt) (track : TrackRec) (pre : DlResult × Nat × Nat) :
    (stepLoopSt st track pre).c =
      (add_song_to_playlist st.m st.c track.song_id track.info pre.1.status).2 := rfl

theorem stepLoopSt_c_name (st : LoopSt) (track : TrackRec) (pre : DlResult × Nat × Nat) :
    (stepLoopSt st track pre).c.playlist_name = st.c.playlist_name := by
  rw [stepLoopSt_c]
  exact add_c_name _ _ _ _ _

theorem attemptLoop_not_cancelled {ctl : DownloadController} (hctl : ctl.cancelAt = none)
    (net : Nat → NetOut) (song_id : String) :
    ∀ (r : Nat) (err : Option String) (attempt t : Nat),
      (attemptLoop ctl net song_id r err attempt t).1.status ≠ "cancelled" := by
  have hcp : ∀ u, check_pause ctl u = true := fun u => by
    simp [check_pause, is_cancelled, hctl]
  intro r
  induction r with
  | zero => intro err attempt t; simp [attemptLoop]
  | succ n ih =>
    intro err attempt t
    simp only [attemptLoop, hcp]
    simp only [not_true, if_false]
    cases hnet : net attempt with
    | miss => exact ih _ _ _
    | raise msg => exact ih _ _ _
    | hit fileFound =>
      simp only [hcp, not_true, if_false]
      cases fileFound with
      | true => simp
      | false => simpa using ih err (attempt + 1) (t + 2)

theorem search_not_cancelled {ctl : DownloadController} (hctl : ctl.cancelAt = none)
    (net : Nat → NetOut) (hf : Bool) (track : TrackRec) (t : Nat) :
    (search_and_download_audio_smart ctl net hf track t).1.status ≠ "cancelled" := by
  have hcp : ∀ u, check_pause ctl u = true := fun u => by
    simp [check_pause, is_cancelled, hctl]
  unfold search_and_download_audio_smart
  simp only [hcp, not_true, if_false]
  split_ifs
  all_goals first
    | exact attemptLoop_not_cancelled hctl net _ _ _ _ _
    | simp

theorem trackResult_not_cancelled {ctl : DownloadController} (hctl : ctl.cancelAt = none)
    (net : Nat → NetOut) (approved : Bool) (hasFile : String → Bool)
    (track : TrackRec) (t0 : Nat) :
    (trackResult ctl net approved hasFile track t0).1.status ≠ "cancelled" := by
  unfold trackResult
  split_ifs
  · simp
  · exact search_not_cancelled hctl net _ track t0
  · simp

theorem processTracks_cons_nocancel {ctl : DownloadController}
    (hctl : ctl.cancelAt = none) (net : Nat → NetOut) (approved : Bool)
    (hasFile : String → Bool) (track : TrackRec) (rest : List TrackRec) (st : LoopSt) :
    processTracks ctl net approved hasFile (track :: rest) st =
      processTracks ctl net approved hasFile rest
        (stepLoopSt st track (trackResult ctl net approved hasFile track (st.t + 2))) := by
  have hic : is_cancelled ctl st.t = false := by simp [is_cancelled, hctl]
  have hcp : check_pause ctl (st.t + 1) = true := by
    simp [check_pause, is_cancelled, hctl]
  have hnc := trackResult_not_cancelled hctl net approved hasFile track (st.t + 2)
  simp only [processTracks, hic, hcp, not_true, if_false, Bool.false_eq_true, hnc]

theorem processTracks_inv (p : String) (ctl : DownloadController)
    (hctl : ctl.cancelAt = none) (net : Nat → NetOut) (approved : Bool)
    (hasFile : String → Bool) {base : List (String × SongInfo)} :
    ∀ (tracks : List TrackRec) (st : LoopSt),
      st.c.playlist_name = p →
      ConsInv p base st.m.existing_songs →
      ConsInv p base (processTracks ctl net approved hasFile tracks st).m.existing_songs ∧
        (∀ q, HasP st.m.existing_songs p q →
          HasP (processTracks ctl net approved hasFile tracks st).m.existing_songs p q) ∧
        (∀ tr ∈ tracks,
          HasP (processTracks ctl net approved hasFile tracks st).m.existing_songs p
            tr.song_id) ∧
        (processTracks ctl net approved hasFile tracks st).c.playlist_name = p := by
  intro tracks
  induction tracks with
  | nil =>
    intro st hc hInv
    exact ⟨hInv, fun q h => h, by simp, hc⟩
  | cons track rest ih =>
    intro st hc hInv
    rw [processTracks_cons_nocancel hctl]
    set pre := trackResult ctl net approved hasFile track (st.t + 2) with hpre
    set st' := stepLoopSt st track pre with hst'
    have hadd := consInv_add p track.song_id track.info pre.1.status hc hInv
    have hst'm : st'.m = (add_song_to_playlist st.m st.c track.song_id track.info
        pre.1.status).1 := stepLoopSt_m st track pre
    have hc' : st'.c.playlist_name = p := by
      rw [stepLoopSt_c_name]
      exact hc
    have hInv' : ConsInv p base st'.m.existing_songs := by rw [hst'm]; exact hadd.1
    obtain ⟨hOut, hMono, hAll, hOutName⟩ := ih st' hc' hInv'
    refine ⟨hOut, ?_, ?_, hOutName⟩
    · intro q hq
      refine hMono q ?_
      rw [hst'm]
      exact hadd.2.2 q hq
    · intro tr htr
      rcases List.mem_cons.mp htr with htr | htr

      · rw [htr]
        refine hMono _ ?_
        rw [hst'm]
        exact hadd.2.1
      · exact hAll tr htr

theorem orElseOpt_some {α : Type} (v : α) (y : Option α) :
    orElseOpt (some v) y = some v := rfl

theorem orElseOpt_none {α : Type} (y : Option α) : orElseOpt none y = y := rfl

theorem pickFold_orElse {β α : Type} (pick : β → Option α) (l : List β)
    (init : Option α) :
    pickFold pick l init = orElseOpt (pickFold pick l none) init := by
  rw [pickFold_init]
  cases pickFold pick l none <;> rfl

theorem regPick_uriReg_some {q sid : String} {e : String × SongInfo}
    (h : regPick uriReg q e = some sid) :
    e.1 = sid ∧ e.2.metadata.track_uri = q ∧ e.2.metadata.track_uri ≠ "" := by
  unfold regPick uriReg at h
  by_cases hc : e.2.metadata.track_uri ≠ ""
  · rw [if_pos hc] at h
    simp only at h
    by_cases hq : e.2.metadata.track_uri = q
    · rw [if_pos hq] at h
      exact ⟨Option.some.inj h, hq, hc⟩
    · rw [if_neg hq] at h
      exact absurd h (by simp)
  · rw [if_neg hc] at h
    exact absurd h (by simp)

theorem regPick_keyReg_some {q sid : String} {e : String × SongInfo}
    (h : regPick keyReg q e = some sid) : e.1 = sid := by
  unfold regPick keyReg at h
  by_cases hc : normStr e.2.metadata.track_name ≠ "" ∧ normStr e.2.metadata.artists_string ≠ ""
  · rw [if_pos hc] at h
    simp only at h
    by_cases hq : normStr e.2.metadata.track_name ++ "|" ++ normStr e.2.metadata.artists_string = q
    · rw [if_pos hq] at h
      exact Option.some.inj h
    · rw [if_neg hq] at h
      exact absurd h (by simp)
  · rw [if_neg hc] at h
    exact absurd h (by simp)

/-- The heart of idempotence: against a table `L` produced by one
consolidation run over `base` (base part metadata-stable, appended part all
in playlist `p`), resolving any record again lands on a song already in
`p`, provided the resolution of the first run did. -/
theorem resolve_load_hasP {base old new L : List (String × SongInfo)} {p : String}
    (hL : L = old ++ new) (hrel : List.Forall₂ KM base old)
    (hnew : ∀ e ∈ new, p ∈ e.2.playlists) (hnodup : (dictKeys L).Nodup)
    (t : TrackInfo)
    (htrack : HasP L p (resolve_song_id (load_existing_database base) t)) :
    HasP L p (resolve_song_id (load_existing_database L) t) := by
  have hpick_uri : ∀ q : String,
      pickFold (regPick uriReg q) old none = pickFold (regPick uriReg q) base none :=
    fun q => (pickFold_forall₂ (List.Forall₂.imp (fun a b hab => by
      unfold regPick uriReg
      rw [hab.1, hab.2]) hrel) none).symm
  have hpick_key : ∀ q : String,
      pickFold (regPick keyReg q) old none = pickFold (regPick keyReg q) base none :=
    fun q => (pickFold_forall₂ (List.Forall₂.imp (fun a b hab => by
      unfold regPick keyReg
      rw [hab.1, hab.2]) hrel) none).symm
  have hUri : ∀ q : String, dictGet (load_existing_database L).uri_to_song_id q =
      orElseOpt (pickFold (regPick uriReg q) new none)
        (dictGet (load_existing_database base).uri_to_song_id q) := by
    intro q
    rw [load_uri, dictGet_regFold, load_uri, dictGet_regFold]
    show pickFold (regPick uriReg q) L none =
      orElseOpt (pickFold (regPick uriReg q) new none) (pickFold (regPick uriReg q) base none)
    rw [hL, pickFold_append, hpick_uri q, pickFold_orElse]
  have hKey : ∀ q : String, dictGet (load_existing_database L).name_artist_to_song_id q =
      orElseOpt (pickFold (regPick keyReg q) new none)
        (dictGet (load_existing_database base).name_artist_to_song_id q) := by
    intro q
    rw [load_key, dictGet_regFold, load_key, dictGet_regFold]
    show pickFold (regPick keyReg q) L none =
      orElseOpt (pickFold (regPick keyReg q) new none) (pickFold (regPick keyReg q) base none)
    rw [hL, pickFold_append, hpick_key q, pickFold_orElse]
  have hNewHasP : ∀ (e : String × SongInfo), e ∈ new → HasP L p e.1 := by
    intro e he
    refine ⟨e.2, ?_, hnew e he⟩
    exact dictGet_of_mem_nodup hnodup (by rw [hL]; exact List.mem_append_right _ he)
  have hNewU : ∀ q sid, pickFold (regPick uriReg q) new none = some sid →
      HasP L p sid := by
    intro q sid h
    obtain ⟨e, he, hpe⟩ := pickFold_some_mem h
    obtain ⟨h1, _, _⟩ := regPick_uriReg_some hpe
    exact h1 ▸ hNewHasP e he
  have hNewK : ∀ q sid, pickFold (regPick keyReg q) new none = some sid →
      HasP L p sid := by
    intro q sid h
    obtain ⟨e, he, hpe⟩ := pickFold_some_mem h
    exact (regPick_keyReg_some hpe) ▸ hNewHasP e he
  by_cases hu : t.track_uri ≠ ""
  · cases hpu : pickFold (regPick uriReg t.track_uri) new none with
    | some w =>
      have hfind1 : find_existing_song (load_existing_database L) t = some w := by
        unfold find_existing_song
        dsimp only
        rw [if_pos hu, hUri, hpu, orElseOpt_some]
      have hres1 : resolve_song_id (load_existing_database L) t = w := by
        unfold resolve_song_id
        rw [hfind1]
      rw [hres1]
      exact hNewU _ w hpu
    | none =>
      cases hg0 : dictGet (load_existing_database base).uri_to_song_id t.track_uri with
      | some s0 =>
        have hfind1 : find_existing_song (load_existing_database L) t = some s0 := by
          unfold find_existing_song
          dsimp only
          rw [if_pos hu, hUri, hpu, orElseOpt_none, hg0]
        have hfind0 : find_existing_song (load_existing_database base) t = some s0 := by
          unfold find_existing_song
          dsimp only
          rw [if_pos hu, hg0]
        have hres1 : resolve_song_id (load_existing_database L) t = s0 := by
          unfold resolve_song_id
          rw [hfind1]
        have hres0 : resolve_song_id (load_existing_database base) t = s0 := by
          unfold resolve_song_id
          rw [hfind0]
        rw [hres1]
        rw [hres0] at htrack
        exact htrack
      | none =>
        have huri1 : (if t.track_uri ≠ "" then
            dictGet (load_existing_database L).uri_to_song_id t.track_uri
          else none) = none := by
          rw [if_pos hu, hUri, hpu, orElseOpt_none, hg0]
        have huri0 : (if t.track_uri ≠ "" then
            dictGet (load_existing_database base).uri_to_song_id t.track_uri
          else none) = none := by
          rw [if_pos hu, hg0]
        by_cases hcomps : normStr t.track_name ≠ "" ∧ normStr t.artists_string ≠ ""
        · cases hpk : pickFold
              (regPick keyReg (normStr t.track_name ++ "|" ++ normStr t.artists_string))
              new none with
          | some w =>
            have hfind1 : find_existing_song (load_existing_database L) t = some w := by
              unfold find_existing_song
              dsimp only
              rw [huri1]
              rw [if_pos hcomps, hKey, hpk, orElseOpt_some]
            have hres1 : resolve_song_id (load_existing_database L) t = w := by
              unfold resolve_song_id
              rw [hfind1]
            rw [hres1]
            exact hNewK _ w hpk
          | none =>
            cases hk0 : dictGet (load_existing_database base).name_artist_to_song_id
                (normStr t.track_name ++ "|" ++ normStr t.artists_string) with
            | some s0 =>
              have hfind1 : find_existing_song (load_existing_database L) t = some s0 := by
                unfold find_existing_song
                dsimp only
                rw [huri1]
                rw [if_pos hcomps, hKey, hpk, orElseOpt_none, hk0]
              have hfind0 : find_existing_song (load_existing_database base) t = some s0 := by
                unfold find_existing_song
                dsimp only
                rw [huri0]
                rw [if_pos hcomps, hk0]
              have hres1 : resolve_song_id (load_existing_database L) t = s0 := by
                unfold resolve_song_id
                rw [hfind1]
              have hres0 : resolve_song_id (load_existing_database base) t = s0 := by
                unfold resolve_song_id
                rw [hfind0]
              rw [hres1]
              rw [hres0] at htrack
              exact htrack
            | none =>
              have hfind1 : find_existing_song (load_existing_database L) t = none := by
                unfold find_existing_song
                dsimp only
                rw [huri1]
                rw [if_pos hcomps, hKey, hpk, orElseOpt_none, hk0]
              have hfind0 : find_existing_song (load_existing_database base) t = none := by
                unfold find_existing_song
                dsimp only
                rw [huri0]
                rw [if_pos hcomps, hk0]
              have hres1 : resolve_song_id (load_existing_database L) t =
                  generate_song_id t.track_name t.artists_string := by
                unfold resolve_song_id
                rw [hfind1]
              have hres0 : resolve_song_id (load_existing_database base) t =
                  generate_song_id t.track_name t.artists_string := by
                unfold resolve_song_id
                rw [hfind0]
              rw [hres1]
              rw [hres0] at htrack
              exact htrack
        · have hfind1 : find_existing_song (load_existing_database L) t = none := by
            unfold find_existing_song
            dsimp only
            rw [huri1]
            rw [if_neg hcomps]
          have hfind0 : find_existing_song (load_existing_database base) t = none := by
            unfold find_existing_song
            dsimp only
            rw [huri0]
            rw [if_neg hcomps]
          have hres1 : resolve_song_id (load_existing_database L) t =
              generate_song_id t.track_name t.artists_string := by
            unfold resolve_song_id
            rw [hfind1]
          have hres0 : resolve_song_id (load_existing_database base) t =
              generate_song_id t.track_name t.artists_string := by
            unfold resolve_song_id
            rw [hfind0]
          rw [hres1]
          rw [hres0] at htrack
          exact htrack
  · have huri1 : (if t.track_uri ≠ "" then
        dictGet (load_existing_database L).uri_to_song_id t.track_uri
      else none) = none := by rw [if_neg hu]
    have huri0 : (if t.track_uri ≠ "" then
        dictGet (load_existing_database base).uri_to_song_id t.track_uri
      else none) = none := by rw [if_neg hu]
    by_cases hcomps : normStr t.track_name ≠ "" ∧ normStr t.artists_string ≠ ""
    · cases hpk : pickFold
          (regPick keyReg (normStr t.track_name ++ "|" ++ normStr t.artists_string))
          new none with
      | some w =>
        have hfind1 : find_existing_song (load_existing_database L) t = some w := by
          unfold find_existing_song
          dsimp only
          rw [huri1]
          rw [if_pos hcomps, hKey, hpk, orElseOpt_some]
        have hres1 : resolve_song_id (load_existing_database L) t = w := by
          unfold resolve_song_id
          rw [hfind1]
        rw [hres1]
        exact hNewK _ w hpk
      | none =>
        cases hk0 : dictGet (load_existing_database base).name_artist_to_song_id
            (normStr t.track_name ++ "|" ++ normStr t.artists_string) with
        | some s0 =>
          have hfind1 : find_existing_song (load_existing_database L) t = some s0 := by
            unfold find_existing_song
            dsimp only
            rw [huri1]
            rw [if_pos hcomps, hKey, hpk, orElseOpt_none, hk0]
          have hfind0 : find_existing_song (load_existing_database base) t = some s0 := by
            unfold find_existing_song
            dsimp only
            rw [huri0]
            rw [if_pos hcomps, hk0]
          have hres1 : resolve_song_id (load_existing_database L) t = s0 := by
            unfold resolve_song_id
            rw [hfind1]
          have hres0 : resolve_song_id (load_existing_database base) t = s0 := by
            unfold resolve_song_id
            rw [hfind0]
          rw [hres1]
          rw [hres0] at htrack
          exact htrack
        | none =>
          have hfind1 : find_existing_song (load_existing_database L) t = none := by
            unfold find_existing_song
            dsimp only
            rw [huri1]
            rw [if_pos hcomps, hKey, hpk, orElseOpt_none, hk0]
          have hfind0 : find_existing_song (load_existing_database base) t = none := by
            unfold find_existing_song
            dsimp only
            rw [huri0]
            rw [if_pos hcomps, hk0]
          have hres1 : resolve_song_id (load_existing_database L) t =
              generate_song_id t.track_name t.artists_string := by
            unfold resolve_song_id
            rw [hfind1]
          have hres0 : resolve_song_id (load_existing_database base) t =
              generate_song_id t.track_name t.artists_string := by
            unfold resolve_song_id
            rw [hfind0]
          rw [hres1]
          rw [hres0] at htrack
          exact htrack
    · have hfind1 : find_existing_song (load_existing_database L) t = none := by
        unfold find_existing_song
        dsimp only
        rw [huri1]
        rw [if_neg hcomps]
      have hfind0 : find_existing_song (load_existing_database base) t = none := by
        unfold find_existing_song
        dsimp only
        rw [huri0]
        rw [if_neg hcomps]
      have hres1 : resolve_song_id (load_existing_database L) t =
          generate_song_id t.track_name t.artists_string := by
        unfold resolve_song_id
        rw [hfind1]
      have hres0 : resolve_song_id (load_existing_database base) t =
          generate_song_id t.track_name t.artists_string := by
        unfold resolve_song_id
        rw [hfind0]
      rw [hres1]
      rw [hres0] at htrack
      exact htrack

/-! ## Lemmas: extraction -/

theorem extract_step_track (m : Manager) (item : RawItem)
    (hw : item.isTrackWrapper = true)
    (hv : (validate_track_data (make_track_info item)).1 = true) :
    extract_step m item = .track
      ⟨make_track_info item, resolve_song_id m (make_track_info item),
        (find_existing_song m (make_track_info item)).isSome⟩ := by
  unfold extract_step
  rw [hw]
  simp only [hv, Config.SKIP_INVALID_TRACKS]
  unfold resolve_song_id
  cases hf : find_existing_song m (make_track_info item) with
  | some sid => simp
  | none => simp

theorem extract_step_track_inv {m : Manager} {item : RawItem} {r : TrackRec}
    (h : extract_step m item = .track r) :
    item.isTrackWrapper = true ∧
      (validate_track_data (make_track_info item)).1 = true ∧
      r.info = make_track_info item ∧
      r.song_id = resolve_song_id m (make_track_info item) := by
  unfold extract_step at h
  cases hw : item.isTrackWrapper with
  | false => rw [hw] at h; simp at h
  | true =>
    rw [hw] at h
    simp only [Bool.not_true, if_false] at h
    cases hv : (validate_track_data (make_track_info item)).1 with
    | false =>
      rw [hv] at h
      simp [Config.SKIP_INVALID_TRACKS] at h
    | true =>
      rw [hv] at h
      simp only [Config.SKIP_INVALID_TRACKS] at h
      cases hf : find_existing_song m (make_track_info item) with
      | some sid =>
        rw [hf] at h
        simp at h
        refine ⟨rfl, rfl, ?_, ?_⟩
        · rw [← h]
        · rw [← h]
          unfold resolve_song_id
          rw [hf]
      | none =>
        rw [hf] at h
        simp at h
        refine ⟨rfl, rfl, ?_, ?_⟩
        · rw [← h]
        · rw [← h]
          unfold resolve_song_id
          rw [hf]

theorem extract_cons_track {m : Manager} {item : RawItem} {rest : List RawItem}
    {r : TrackRec} (hstep : extract_step m item = .track r) :
    extract_enhanced_track_info m (item :: rest) =
      (r :: (extract_enhanced_track_info m rest).1,
        (extract_enhanced_track_info m rest).2) := by
  simp only [extract_enhanced_track_info, hstep]

theorem extract_cons_skip {m : Manager} {item : RawItem} {rest : List RawItem}
    {e : SkipEntry} (hstep : extract_step m item = .skip e) :
    extract_enhanced_track_info m (item :: rest) =
      ((extract_enhanced_track_info m rest).1,
        e :: (extract_enhanced_track_info m rest).2) := by
  simp only [extract_enhanced_track_info, hstep]

theorem extract_cons_drop {m : Manager} {item : RawItem} {rest : List RawItem}
    (hstep : extract_step m item = .drop) :
    extract_enhanced_track_info m (item :: rest) =
      extract_enhanced_track_info m rest := by
  simp only [extract_enhanced_track_info, hstep]

theorem extract_mem_track {m : Manager} {items : List RawItem} {tr : TrackRec}
    (h : tr ∈ (extract_enhanced_track_info m items).1) :
    ∃ item ∈ items, item.isTrackWrapper = true ∧
      (validate_track_data (make_track_info item)).1 = true ∧
      tr.song_id = resolve_song_id m (make_track_info item) := by
  induction items with
  | nil => simp [extract_enhanced_track_info] at h
  | cons item rest ih =>
    cases hstep : extract_step m item with
    | track r =>
      rw [extract_cons_track hstep] at h
      rcases List.mem_cons.mp h with h | h
      · obtain ⟨hw, hv, _, hsid⟩ := extract_step_track_inv hstep
        exact ⟨item, List.mem_cons_self _ _, hw, hv, h ▸ hsid⟩
      · obtain ⟨it, hit, rest_h⟩ := ih h
        exact ⟨it, List.mem_cons_of_mem _ hit, rest_h⟩
    | skip e =>
      rw [extract_cons_skip hstep] at h
      obtain ⟨it, hit, rest_h⟩ := ih h
      exact ⟨it, List.mem_cons_of_mem _ hit, rest_h⟩
    | drop =>
      rw [extract_cons_drop hstep] at h
      obtain ⟨it, hit, rest_h⟩ := ih h
      exact ⟨it, List.mem_cons_of_mem _ hit, rest_h⟩

theorem extract_item_track (m : Manager) {items : List RawItem} {item : RawItem}
    (hm : item ∈ items) (hw : item.isTrackWrapper = true)
    (hv : (validate_track_data (make_track_info item)).1 = true) :
    ∃ tr ∈ (extract_enhanced_track_info m items).1,
      tr.song_id = resolve_song_id m (make_track_info item) := by
  induction items with
  | nil => simp at hm
  | cons it rest ih =>
    rcases List.mem_cons.mp hm with hm | hm
    · subst hm
      rw [extract_cons_track (extract_step_track m item hw hv)]
      exact ⟨_, List.mem_cons_self _ _, rfl⟩
    · cases hstep : extract_step m it with
      | track r =>
        rw [extract_cons_track hstep]
        obtain ⟨tr, htr, hsid⟩ := ih hm
        exact ⟨tr, List.mem_cons_of_mem _ htr, hsid⟩
      | skip e =>
        rw [extract_cons_skip hstep]
        exact ih hm
      | drop =>
        rw [extract_cons_drop hstep]
        exact ih hm

theorem extract_tracks_nil_iff (m : Manager) (items : List RawItem) :
    (extract_enhanced_track_info m items).1 = [] ↔
      ∀ item ∈ items, ¬(item.isTrackWrapper = true ∧
        (validate_track_data (make_track_info item)).1 = true) := by
  constructor
  · intro h item hmem hcond
    obtain ⟨tr, htr, _⟩ := extract_item_track m hmem hcond.1 hcond.2
    rw [h] at htr
    simp at htr
  · intro h
    induction items with
    | nil => rfl
    | cons item rest ih =>
      have hrest := ih (fun it hit => h it (List.mem_cons_of_mem _ hit))
      cases hstep : extract_step m item with
      | track r =>
        obtain ⟨hw, hv, _, _⟩ := extract_step_track_inv hstep
        exact absurd ⟨hw, hv⟩ (h item (List.mem_cons_self _ _))
      | skip e => rw [extract_cons_skip hstep]; exact hrest
      | drop => rw [extract_cons_drop hstep]; exact hrest

/-! ## Lemmas: `runJob` -/

theorem dictUpdate_append {α : Type} (base A B : List (String × α)) :
    dictUpdate base (A ++ B) = dictUpdate (dictUpdate base A) B := by
  simp [dictUpdate, List.foldl_append]

theorem runJob_disk_no_items {d : Disk} {events : List RawEvent} {p : String}
    (h : capture_requests events = []) : (runJob d events p).disk = d := by
  simp [runJob, process_single_playlist, h]

theorem runJob_disk_no_tracks {d : Disk} {events : List RawEvent} {p : String}
    (hi : capture_requests events ≠ [])
    (ht : (extract_enhanced_track_info (load_existing_database d.songs)
      (capture_requests events)).1 = []) : (runJob d events p).disk = d := by
  simp [runJob, process_single_playlist, hi, ht]

theorem runJob_songs_main {d : Disk} {events : List RawEvent} {p : String}
    (hi : capture_requests events ≠ [])
    (ht : (extract_enhanced_track_info (load_existing_database d.songs)
      (capture_requests events)).1 ≠ []) :
    (runJob d events p).disk.songs =
      dictUpdate d.songs
        (processTracks ⟨none⟩ (fun _ => .miss) false (fun _ => false)
          (extract_enhanced_track_info (load_existing_database d.songs)
            (capture_requests events)).1
          ⟨load_existing_database d.songs, ⟨p, []⟩, [], 0, 0, 0, 0, 0, 0⟩).m.existing_songs := by
  simp [runJob, process_single_playlist, hi, ht, save_consolidated_metadata]

theorem consInv_dictUpdate {base L : List (String × SongInfo)} {p : String}
    (hInv : ConsInv p base L) : dictUpdate base L = L := by
  obtain ⟨hnodup, old, new, hsplit, hrel, _⟩ := hInv
  subst hsplit
  have hkeys : (dictKeys old ++ dictKeys new).Nodup := by
    rw [← dictKeys_append]
    exact hnodup
  have hnodup_old : (dictKeys old).Nodup := hkeys.of_append_left
  have hnodup_new : (dictKeys new).Nodup := hkeys.of_append_right
  have hdisj : ∀ e ∈ new, e.1 ∉ dictKeys old := by
    intro e he hmem
    exact (List.disjoint_left.mp (List.nodup_append.mp hkeys).2.2) hmem
      (List.mem_map_of_mem Prod.fst he)
  rw [dictUpdate_append,
    dictUpdate_aligned (List.Forall₂.imp (fun a b hab => hab.1) hrel) hnodup_old,
    dictUpdate_fresh new old hdisj hnodup_new]

theorem dictUpdate_self_of_nodup {α : Type} {l : List (String × α)}
    (h : (dictKeys l).Nodup) : dictUpdate l l = l :=
  dictUpdate_aligned (List.forall₂_same.mpr (fun _ _ => rfl)) h

theorem processTracks_mgr_noop (p : String) (ctl : DownloadController)
    (net : Nat → NetOut) (approved : Bool) (hasFile : String → Bool) :
    ∀ (tracks : List TrackRec) (st : LoopSt),
      st.c.playlist_name = p →
      (∀ tr ∈ tracks, HasP st.m.existing_songs p tr.song_id) →
      (processTracks ctl net approved hasFile tracks st).m = st.m := by
  intro tracks
  induction tracks with
  | nil => intro st _ _; rfl
  | cons track rest ih =>
    intro st hc hall
    obtain ⟨s, hs, hps⟩ := hall track (List.mem_cons_self _ _)
    have hnoop : ∀ ds, (add_song_to_playlist st.m st.c track.song_id track.info ds).1 =
        st.m := fun ds => add_manager_noop hs (by rw [hc]; exact hps)
    cases h1 : is_cancelled ctl st.t with
    | true => simp only [processTracks, h1, if_true]
    | false =>
      cases h2 : check_pause ctl (st.t + 1) with
      | false => simp only [processTracks, h1, h2, Bool.false_eq_true, not_false_iff,
          if_false, if_true]
      | true =>
        have hm' : (stepLoopSt st track
            (trackResult ctl net approved hasFile track (st.t + 2))).m = st.m := by
          rw [stepLoopSt_m]
          exact hnoop _
        have hcn : (stepLoopSt st track
            (trackResult ctl net approved hasFile track (st.t + 2))).c.playlist_name = p := by
          rw [stepLoopSt_c_name]
          exact hc
        have step : processTracks ctl net approved hasFile (track :: rest) st =
            if (trackResult ctl net approved hasFile track (st.t + 2)).1.status =
                "cancelled" then
              stepLoopSt st track (trackResult ctl net approved hasFile track (st.t + 2))
            else processTracks ctl net approved hasFile rest
              (stepLoopSt st track (trackResult ctl net approved hasFile track (st.t + 2))) := by
          simp only [processTracks, h1, h2, not_true, if_false, Bool.false_eq_true]
        rw [step]
        split
        · exact hm'
        · have hall' : ∀ tr ∈ rest,
              HasP (stepLoopSt st track
                (trackResult ctl net approved hasFile track (st.t + 2))).m.existing_songs
                p tr.song_id := by
            rw [hm']
            exact fun tr htr => hall tr (List.mem_cons_of_mem _ htr)
          rw [ih _ hcn hall']
          exact hm'

/-- A second run over a catalog in the post-run shape changes nothing in the
songs table: every valid item resolves to a song already in playlist `p`,
so every upsert is a no-op, and the final union rewrites the table onto
itself. -/
theorem runJob_songs_preserved {d' : Disk} {events : List RawEvent} {p : String}
    {base old new : List (String × SongInfo)}
    (hi : capture_requests events ≠ [])
    (hsplit : d'.songs = old ++ new) (hrel : List.Forall₂ KM base old)
    (hnewp : ∀ e ∈ new, p ∈ e.2.playlists) (hnodup : (dictKeys d'.songs).Nodup)
    (hAllItems : ∀ item ∈ capture_requests events, item.isTrackWrapper = true →
      (validate_track_data (make_track_info item)).1 = true →
      HasP d'.songs p
        (resolve_song_id (load_existing_database base) (make_track_info item))) :
    (runJob d' events p).disk.songs = d'.songs := by
  by_cases ht2 : (extract_enhanced_track_info (load_existing_database d'.songs)
      (capture_requests events)).1 = []
  · rw [runJob_disk_no_tracks hi ht2]
  · rw [runJob_songs_main hi ht2]
    have hload2 : (load_existing_database d'.songs).existing_songs = d'.songs :=
      load_songs_of_nodup hnodup
    have hcov : ∀ tr ∈ (extract_enhanced_track_info (load_existing_database d'.songs)
        (capture_requests events)).1, HasP d'.songs p tr.song_id := by
      intro tr htr
      obtain ⟨item, hitem, hw, hv, hsid⟩ := extract_mem_track htr
      rw [hsid]
      exact resolve_load_hasP hsplit hrel hnewp hnodup (make_track_info item)
        (hAllItems item hitem hw hv)
    have hnoop := processTracks_mgr_noop p ⟨none⟩ (fun _ => NetOut.miss) false
      (fun _ => false)
      (extract_enhanced_track_info (load_existing_database d'.songs)
        (capture_requests events)).1
      ⟨load_existing_database d'.songs, ⟨p, []⟩, [], 0, 0, 0, 0, 0, 0⟩ rfl
      (fun tr htr => by
        show HasP (load_existing_database d'.songs).existing_songs p tr.song_id
        rw [hload2]
        exact hcov tr htr)
    rw [hnoop]
    show dictUpdate d'.songs (load_existing_database d'.songs).existing_songs = d'.songs
    rw [hload2]
    exact dictUpdate_self_of_nodup hnodup

/-- Idempotence of one full capture-consolidate-save job: running it a
second time over the same event stream, starting from the catalog the
first run saved, reproduces the songs table exactly. -/
theorem runJob_idempotent (d : Disk) (events : List RawEvent) (p : String)
    (hn : (dictKeys d.songs).Nodup) :
    (runJob (runJob d events p).disk events p).disk.songs =
      (runJob d events p).disk.songs := by
  by_cases hi : capture_requests events = []
  · simp only [runJob_disk_no_items hi]
  by_cases ht : (extract_enhanced_track_info (load_existing_database d.songs)
      (capture_requests events)).1 = []
  · simp only [runJob_disk_no_tracks hi ht]
  have hInv0 : ConsInv p d.songs (load_existing_database d.songs).existing_songs := by
    rw [load_songs_of_nodup hn]
    exact ⟨hn, d.songs, [], by simp, forall₂_KM_refl d.songs, by simp⟩
  obtain ⟨hOut, hMono, hAll, hcname⟩ :=
    processTracks_inv p ⟨none⟩ rfl (fun _ => NetOut.miss) false (fun _ => false)
      (extract_enhanced_track_info (load_existing_database d.songs)
        (capture_requests events)).1
      ⟨load_existing_database d.songs, ⟨p, []⟩, [], 0, 0, 0, 0, 0, 0⟩ rfl hInv0
  have hsongs1 : (runJob d events p).disk.songs =
      (processTracks ⟨none⟩ (fun _ => NetOut.miss) false (fun _ => false)
        (extract_enhanced_track_info (load_existing_database d.songs)
          (capture_requests events)).1
        ⟨load_existing_database d.songs, ⟨p, []⟩, [], 0, 0, 0, 0, 0, 0⟩).m.existing_songs := by
    rw [runJob_songs_main hi ht]
    exact consInv_dictUpdate hOut
  obtain ⟨hnodupF, old, new, hsplit, hrel, hnewp⟩ := hOut
  have hsplit2 : (runJob d events p).disk.songs = old ++ new := by
    rw [hsongs1]
    exact hsplit
  have hnodup2 : (dictKeys (runJob d events p).disk.songs).Nodup := by
    rw [hsongs1]
    exact hnodupF
  have hAllItems : ∀ item ∈ capture_requests events, item.isTrackWrapper = true →
      (validate_track_data (make_track_info item)).1 = true →
      HasP (runJob d events p).disk.songs p
        (resolve_song_id (load_existing_database d.songs) (make_track_info item)) := by
    intro item hitem hw hv
    obtain ⟨tr1, htr1, hsid1⟩ :=
      extract_item_track (load_existing_database d.songs) hitem hw hv
    rw [hsongs1]
    exact hsid1 ▸ hAll tr1 htr1
  exact runJob_songs_preserved hi hsplit2 hrel hnewp hnodup2 hAllItems

/-! ## Lemmas: the three tables written by `save_consolidated_metadata` -/

theorem save_songs_eq (m : Manager) (c : Consolidator) (pm : PlaylistMeta) (d : Disk) :
    (save_consolidated_metadata m c pm d).songs = dictUpdate d.songs m.existing_songs := rfl

theorem save_playlists_eq (m : Manager) (c : Consolidator) (pm : PlaylistMeta) (d : Disk) :
    (save_consolidated_metadata m c pm d).playlistsT =
      dictInsert d.playlistsT c.playlist_name pm := rfl

theorem save_mapping_eq (m : Manager) (c : Consolidator) (pm : PlaylistMeta) (d : Disk) :
    (save_consolidated_metadata m c pm d).mapping =
      regFold mapReg (dictUpdate d.songs m.existing_songs) d.mapping := by
  unfold save_consolidated_metadata regFold
  dsimp only
  refine List.foldl_ext _ _ d.mapping (fun acc e _ => ?_)
  by_cases hp : e.2.playlists = [] <;> simp [regStep, mapReg, hp]

theorem dictUpdate_cons {α : Type} (base : List (String × α)) (e : String × α)
    (rest : List (String × α)) :
    dictUpdate base (e :: rest) = dictUpdate (dictInsert base e.1 e.2) rest := rfl

theorem dictUpdate_keys_nodup {α : Type} :
    ∀ (new base : List (String × α)), (dictKeys base).Nodup →
      (dictKeys (dictUpdate base new)).Nodup := by
  intro new
  induction new with
  | nil => intro base h; exact h
  | cons e rest ih =>
    intro base h
    rw [dictUpdate_cons]
    exact ih _ (dictKeys_nodup_dictInsert h e.2)

theorem regPick_mapReg_ne {sid : String} {e : String × SongInfo} (h : ¬ e.1 = sid) :
    regPick mapReg sid e = none := by
  unfold regPick mapReg
  by_cases hp : e.2.playlists = [] <;> simp [hp, h]

theorem regPick_mapReg_self {sid : String} {e : String × SongInfo} (h : e.1 = sid) :
    regPick mapReg sid e = if e.2.playlists = [] then none else some e.2.playlists := by
  unfold regPick mapReg
  by_cases hp : e.2.playlists = [] <;> simp [hp, h]

theorem pickFold_mapReg_of_get {l : List (String × SongInfo)} {sid : String}
    {s : SongInfo} (hn : (dictKeys l).Nodup) (hg : dictGet l sid = some s) :
    pickFold (regPick mapReg sid) l none =
      if s.playlists = [] then none else some s.playlists := by
  induction l with
  | nil => simp [dictGet] at hg
  | cons e rest ih =>
    rw [dictKeys_cons, List.nodup_cons] at hn
    rw [pickFold_cons]
    by_cases he : e.1 = sid
    · have hs : e.2 = s := by
        simp only [dictGet, if_pos he] at hg
        exact Option.some.inj hg
      have hnone : ∀ f ∈ rest, regPick mapReg sid f = none := by
        intro f hf
        refine regPick_mapReg_ne (fun hfs => hn.1 ?_)
        rw [he, ← hfs]
        exact List.mem_map_of_mem Prod.fst hf
      rw [pickFold_eq_init hnone, regPick_mapReg_self he, hs]
      by_cases hp : s.playlists = [] <;> simp [hp]
    · have hg' : dictGet rest sid = some s := by
        simpa only [dictGet, if_neg he] using hg
      rw [regPick_mapReg_ne he]
      exact ih hn.2 hg'

theorem pickFold_mapReg_of_none {l : List (String × SongInfo)} {sid : String}
    (hg : dictGet l sid = none) :
    pickFold (regPick mapReg sid) l none = none := by
  have hmem : sid ∉ dictKeys l := dictGet_eq_none_iff.mp hg
  refine pickFold_eq_init (fun e he => regPick_mapReg_ne (fun hes => hmem ?_)) none
  rw [← hes]
  exact List.mem_map_of_mem Prod.fst he

/-- Forward direction of the mapping rebuild: a unioned song with a
non-empty membership list gets exactly that list in the saved mapping. -/
theorem save_mapping_of_song {m : Manager} {c : Consolidator} {pm : PlaylistMeta}
    {d : Disk} {sid : String} {s : SongInfo}
    (hn : (dictKeys (save_consolidated_metadata m c pm d).songs).Nodup)
    (hg : dictGet (save_consolidated_metadata m c pm d).songs sid = some s)
    (hne : s.playlists ≠ []) :
    dictGet (save_consolidated_metadata m c pm d).mapping sid = some s.playlists := by
  rw [save_songs_eq] at hn hg
  rw [save_mapping_eq, dictGet_regFold, pickFold_init, pickFold_mapReg_of_get hn hg,
    if_neg hne]

/-- Backward direction of the mapping rebuild: every saved mapping entry is
either a unioned song's non-empty membership list or a stale entry carried
over from the pre-existing mapping table. -/
theorem save_mapping_inv {m : Manager} {c : Consolidator} {pm : PlaylistMeta}
    {d : Disk} {sid : String} {pl : List String}
    (hn : (dictKeys (save_consolidated_metadata m c pm d).songs).Nodup)
    (hg : dictGet (save_consolidated_metadata m c pm d).mapping sid = some pl) :
    (∃ s, dictGet (save_consolidated_metadata m c pm d).songs sid = some s ∧
      s.playlists = pl ∧ pl ≠ []) ∨
      dictGet d.mapping sid = some pl := by
  rw [save_songs_eq] at hn ⊢
  rw [save_mapping_eq, dictGet_regFold, pickFold_init] at hg
  cases hsong : dictGet (dictUpdate d.songs m.existing_songs) sid with
  | some s =>
    rw [pickFold_mapReg_of_get hn hsong] at hg
    by_cases hp : s.playlists = []
    · rw [if_pos hp] at hg
      exact Or.inr hg
    · rw [if_neg hp] at hg
      refine Or.inl ⟨s, rfl, Option.some.inj hg, ?_⟩
      rw [← Option.some.inj hg]
      exact hp
  | none =>
    rw [pickFold_mapReg_of_none hsong] at hg
    exact Or.inr hg

/-! ## Lemmas: the extractor over item streams and rejected items -/

theorem extract_append (m : Manager) (l1 l2 : List RawItem) :
    extract_enhanced_track_info m (l1 ++ l2) =
      ((extract_enhanced_track_info m l1).1 ++ (extract_enhanced_track_info m l2).1,
        (extract_enhanced_track_info m l1).2 ++ (extract_enhanced_track_info m l2).2) := by
  induction l1 with
  | nil => simp [extract_enhanced_track_info]
  | cons item rest ih =>
    cases hstep : extract_step m item with
    | track r => simp [List.cons_append, extract_cons_track hstep, ih]
    | skip e => simp [List.cons_append, extract_cons_skip hstep, ih]
    | drop => simp [List.cons_append, extract_cons_drop hstep, ih]

theorem make_track_info_name_empty {item : RawItem} (hname : trimStr item.name = "") :
    (make_track_info item).track_name = "" := by
  unfold make_track_info safeStr
  dsimp only
  rw [if_pos hname]
  decide

theorem extract_step_empty_name (m : Manager) {item : RawItem}
    (hw : item.isTrackWrapper = true) (hname : trimStr item.name = "") :
    extract_step m item =
      .skip ⟨make_track_info item, "Track name is empty or too short"⟩ := by
  have hval : validate_track_data (make_track_info item) =
      (false, "Track name is empty or too short") := by
    unfold validate_track_data
    dsimp only
    rw [make_track_info_name_empty hname]
    rw [if_pos (Or.inl (by decide : trimStr "" = ""))]
  simp [extract_step, hw, hval, Config.SKIP_INVALID_TRACKS]

theorem runJob_disk_main {d : Disk} {events : List RawEvent} {p : String}
    (hi : capture_requests events ≠ [])
    (ht : (extract_enhanced_track_info (load_existing_database d.songs)
      (capture_requests events)).1 ≠ []) :
    (runJob d events p).disk =
      save_consolidated_metadata
        (processTracks ⟨none⟩ (fun _ => .miss) false (fun _ => false)
          (extract_enhanced_track_info (load_existing_database d.songs)
            (capture_requests events)).1
          ⟨load_existing_database d.songs, ⟨p, []⟩, [], 0, 0, 0, 0, 0, 0⟩).m
        (processTracks ⟨none⟩ (fun _ => .miss) false (fun _ => false)
          (extract_enhanced_track_info (load_existing_database d.songs)
            (capture_requests events)).1
          ⟨load_existing_database d.songs, ⟨p, []⟩, [], 0, 0, 0, 0, 0, 0⟩).c
        ⟨p, (extract_enhanced_track_info (load_existing_database d.songs)
            (capture_requests events)).1.length,
          (processTracks ⟨none⟩ (fun _ => .miss) false (fun _ => false)
            (extract_enhanced_track_info (load_existing_database d.songs)
              (capture_requests events)).1
            ⟨load_existing_database d.songs, ⟨p, []⟩, [], 0, 0, 0, 0, 0, 0⟩).c.playlist_songs⟩
        d := by
  simp [runJob, process_single_playlist, hi, ht]

theorem runJob_disk_of_tracks_eq {d : Disk} {E F : List RawEvent} {p : String}
    (hiE : capture_requests E ≠ []) (hiF : capture_requests F ≠ [])
    (htr : (extract_enhanced_track_info (load_existing_database d.songs)
        (capture_requests E)).1 =
      (extract_enhanced_track_info (load_existing_database d.songs)
        (capture_requests F)).1) :
    (runJob d E p).disk = (runJob d F p).disk := by
  by_cases ht : (extract_enhanced_track_info (load_existing_database d.songs)
      (capture_requests E)).1 = []
  · rw [runJob_disk_no_tracks hiE ht, runJob_disk_no_tracks hiF (htr ▸ ht)]
  · rw [runJob_disk_main hiE ht, runJob_disk_main hiF (htr ▸ ht), htr]

theorem runJob_skips {d : Disk} {events : List RawEvent} {p : String}
    (hi : capture_requests events ≠ []) :
    (runJob d events p).skips =
      (extract_enhanced_track_info (load_existing_database d.songs)
        (capture_requests events)).2 := by
  unfold runJob process_single_playlist
  dsimp only
  rw [if_neg hi]
  split <;> rfl

/-- Dropping a whitespace-named track wrapper from the captured stream
changes nothing in the saved catalog: the extracted track lists agree, so
the whole persisted state agrees. -/
theorem runJob_disk_drop_invalid {d : Disk} {E F : List RawEvent} {p : String}
    {xs ys : List RawItem} {bad : RawItem}
    (hw : bad.isTrackWrapper = true) (hname : trimStr bad.name = "")
    (hE : capture_requests E = xs ++ bad :: ys)
    (hF : capture_requests F = xs ++ ys) :
    (runJob d E p).disk = (runJob d F p).disk := by
  have hskipstep := extract_step_empty_name (load_existing_database d.songs) hw hname
  have htr : (extract_enhanced_track_info (load_existing_database d.songs)
      (capture_requests E)).1 =
      (extract_enhanced_track_info (load_existing_database d.songs)
        (capture_requests F)).1 := by
    rw [hE, hF, extract_append, extract_append]
    dsimp only
    rw [extract_cons_skip hskipstep]
  have hiE : capture_requests E ≠ [] := by rw [hE]; simp
  by_cases hiF : capture_requests F = []
  · have htE : (extract_enhanced_track_info (load_existing_database d.songs)
        (capture_requests E)).1 = [] := by
      rw [htr, hiF]
      rfl
    rw [runJob_disk_no_items hiF, runJob_disk_no_tracks hiE htE]
  · exact runJob_disk_of_tracks_eq hiE hiF htr

theorem runJob_skip_logged {d : Disk} {E : List RawEvent} {p : String}
    {xs ys : List RawItem} {bad : RawItem}
    (hw : bad.isTrackWrapper = true) (hname : trimStr bad.name = "")
    (hE : capture_requests E = xs ++ bad :: ys) :
    (⟨make_track_info bad, "Track name is empty or too short"⟩ : SkipEntry) ∈
      (runJob d E p).skips := by
  have hiE : capture_requests E ≠ [] := by rw [hE]; simp
  rw [runJob_skips hiE, hE, extract_append]
  dsimp only
  rw [extract_cons_skip (extract_step_empty_name (load_existing_database d.songs) hw hname)]
  exact List.mem_append_right _ (List.mem_cons_self _ _)

/-! ## Lemmas: the batch resume loop -/

theorem statusAt_mark_ne {b : PlaylistBatch} {tc sc : Nat} {err : Option String}
    {j : Nat} (hj : ¬ j = b.current_playlist_index) :
    statusAt (mark_playlist_completed b tc sc err) j = statusAt b j := by
  unfold mark_playlist_completed
  cases hg : b.playlists.get? b.current_playlist_index with
  | none => rfl
  | some entry =>
    unfold statusAt
    dsimp only
    rw [List.get?_set_ne _ _ (fun hh => hj hh.symm)]

theorem statusAt_mark_self {b : PlaylistBatch} {tc sc : Nat} {err : Option String}
    (h : b.current_playlist_index < b.playlists.length) :
    statusAt (mark_playlist_completed b tc sc err) b.current_playlist_index =
      some (if err = none then "completed" else "failed") := by
  unfold mark_playlist_completed
  cases hg : b.playlists.get? b.current_playlist_index with
  | none => exact absurd (List.get?_eq_none.mp hg) (by omega)
  | some entry =>
    unfold statusAt
    dsimp only
    rw [List.get?_set_eq_of_lt _ h]
    rfl

/-- `mark_playlist_completed` never creates a pending entry: it writes
`completed` or `failed` at the cursor and touches nothing else. -/
theorem mark_pending_mono {b : PlaylistBatch} {tc sc : Nat} {err : Option String}
    {j : Nat} (h : statusAt (mark_playlist_completed b tc sc err) j = some "pending") :
    statusAt b j = some "pending" := by
  by_cases hj : j = b.current_playlist_index
  · subst hj
    by_cases hlt : b.current_playlist_index < b.playlists.length
    · rw [statusAt_mark_self hlt] at h
      have h2 := Option.some.inj h
      split at h2
      · exact absurd h2 (by decide)
      · exact absurd h2 (by decide)
    · have hg : b.playlists.get? b.current_playlist_index = none :=
        List.get?_eq_none.mpr (by omega)
      unfold mark_playlist_completed at h
      rw [hg] at h
      exact h
  · rw [statusAt_mark_ne hj] at h
    exact h

theorem run_batch_loop_nil (results : Nat → Nat × Nat × Option String)
    (b : PlaylistBatch) (processed : List Nat) :
    run_batch_loop results [] b processed = (b, processed) := rfl

theorem run_batch_loop_cons_none {results : Nat → Nat × Nat × Option String}
    {i : Nat} {rest : List Nat} {b : PlaylistBatch} {processed : List Nat}
    (hg : b.playlists.get? i = none) :
    run_batch_loop results (i :: rest) b processed =
      run_batch_loop results rest b processed := by
  simp only [run_batch_loop, hg]

theorem run_batch_loop_cons_skip {results : Nat → Nat × Nat × Option String}
    {i : Nat} {rest : List Nat} {b : PlaylistBatch} {processed : List Nat}
    {pl : PlaylistEntry} (hg : b.playlists.get? i = some pl)
    (hst : ¬ pl.status = "pending") :
    run_batch_loop results (i :: rest) b processed =
      run_batch_loop results rest b processed := by
  simp only [run_batch_loop, hg]
  rw [if_pos hst]

theorem run_batch_loop_cons_proc {results : Nat → Nat × Nat × Option String}
    {i : Nat} {rest : List Nat} {b : PlaylistBatch} {processed : List Nat}
    {pl : PlaylistEntry} (hg : b.playlists.get? i = some pl)
    (hst : pl.status = "pending") :
    run_batch_loop results (i :: rest) b processed =
      run_batch_loop results rest
        (mark_playlist_completed b (results i).1 (results i).2.1 (results i).2.2)
        (processed ++ [i]) := by
  simp only [run_batch_loop, hg]
  rw [if_neg (fun hc => hc hst)]

theorem run_batch_loop_prefix (results : Nat → Nat × Nat × Option String) :
    ∀ (idxs : List Nat) (b : PlaylistBatch) (processed : List Nat),
      ∃ tail, (run_batch_loop results idxs b processed).2 = processed ++ tail := by
  intro idxs
  induction idxs with
  | nil => intro b processed; exact ⟨[], by simp [run_batch_loop_nil]⟩
  | cons i rest ih =>
    intro b processed
    cases hg : b.playlists.get? i with
    | none =>
      rw [run_batch_loop_cons_none hg]
      exact ih b processed
    | some pl =>
      by_cases hst : pl.status = "pending"
      · rw [run_batch_loop_cons_proc hg hst]
        obtain ⟨tail, htail⟩ := ih
          (mark_playlist_completed b (results i).1 (results i).2.1 (results i).2.2)
          (processed ++ [i])
        exact ⟨i :: tail, by rw [htail, List.append_assoc]; rfl⟩
      · rw [run_batch_loop_cons_skip hg hst]
        exact ih b processed

/-- Soundness of the resume loop: every index it processes was pending in
the batch state `b0` the loop started from. -/
theorem run_batch_loop_pending (results : Nat → Nat × Nat × Option String)
    (b0 : PlaylistBatch) :
    ∀ (idxs : List Nat) (b : PlaylistBatch) (processed : List Nat),
      (∀ i, statusAt b i = some "pending" → statusAt b0 i = some "pending") →
      (∀ j ∈ processed, statusAt b0 j = some "pending") →
      ∀ j ∈ (run_batch_loop results idxs b processed).2,
        statusAt b0 j = some "pending" := by
  intro idxs
  induction idxs with
  | nil =>
    intro b processed _ hproc j hj
    rw [run_batch_loop_nil] at hj
    exact hproc j hj
  | cons i rest ih =>
    intro b processed hmono hproc
    cases hg : b.playlists.get? i with
    | none =>
      rw [run_batch_loop_cons_none hg]
      exact ih b processed hmono hproc
    | some pl =>
      by_cases hst : pl.status = "pending"
      · rw [run_batch_loop_cons_proc hg hst]
        refine ih _ _ (fun k hk => hmono k (mark_pending_mono hk)) ?_
        intro j hj
        rcases List.mem_append.mp hj with hj | hj
        · exact hproc j hj
        · have hji : j = i := by simpa using hj
          subst hji
          refine hmono j ?_
          have hsb : statusAt b j = some pl.status := by
            unfold statusAt
            rw [hg]
            rfl
          rw [hsb, hst]
      · rw [run_batch_loop_cons_skip hg hst]
        exact ih b processed hmono hproc

/-- The first index the resume loop processes is the first index of the
scanned range whose entry is pending. -/
theorem run_batch_loop_head (results : Nat → Nat × Nat × Option String) :
    ∀ (idxs : List Nat) (b : PlaylistBatch),
      (run_batch_loop results idxs b []).2.head? =
        idxs.find? (fun i => statusAt b i = some "pending") := by
  intro idxs
  induction idxs with
  | nil => intro b; rfl
  | cons i rest ih =>
    intro b
    cases hg : b.playlists.get? i with
    | none =>
      have hpred : ¬ statusAt b i = some "pending" := by
        unfold statusAt
        rw [hg]
        intro hcon
        exact Option.noConfusion hcon
      rw [run_batch_loop_cons_none hg,
        List.find?_cons_of_neg _ (by simp only [decide_eq_true_eq]; exact hpred), ih]
    | some pl =>
      have hsb : statusAt b i = some pl.status := by
        unfold statusAt
        rw [hg]
        rfl
      by_cases hst : pl.status = "pending"
      · have hpred : statusAt b i = some "pending" := by rw [hsb, hst]
        rw [run_batch_loop_cons_proc hg hst,
          List.find?_cons_of_pos _ (by simp only [decide_eq_true_eq]; exact hpred)]
        obtain ⟨tail, htail⟩ := run_batch_loop_prefix results rest
          (mark_playlist_completed b (results i).1 (results i).2.1 (results i).2.2) [i]
        rw [List.nil_append, htail]
        rfl
      · have hpred : ¬ statusAt b i = some "pending" := by
          rw [hsb]
          intro hcon
          exact hst (Option.some.inj hcon)
        rw [run_batch_loop_cons_skip hg hst,
          List.find?_cons_of_neg _ (by simp only [decide_eq_true_eq]; exact hpred), ih]

theorem run_batch_head (results : Nat → Nat × Nat × Option String) (b : PlaylistBatch) :
    (run_batch_processing_mode results b).2.head? = firstPendingFrom b :=
  run_batch_loop_head results _ b

/-! ## Lemmas: cancellation in the download loop -/

theorem stepLoopSt_log (st : LoopSt) (track : TrackRec) (pre : DlResult × Nat × Nat) :
    (stepLoopSt st track pre).download_log = st.download_log ++ [pre.1] := rfl

/-- A cancellation observed at the top of the per-track loop stops it at
once: no further item is examined or logged. -/
theorem processTracks_halt {ctl : DownloadController} {net : Nat → NetOut}
    {approved : Bool} {hasFile : String → Bool} {tracks : List TrackRec} {st : LoopSt}
    (h : is_cancelled ctl st.t = true) :
    processTracks ctl net approved hasFile tracks st = st := by
  cases tracks with
  | nil => rfl
  | cons track rest => simp only [processTracks, h, if_true]

/-- A cancellation pending when `search_and_download_audio_smart` is
entered makes it return the cancelled result for the in-flight item. -/
theorem search_cancelled_at_entry {ctl : DownloadController} {t : Nat}
    (h : is_cancelled ctl t = true) (net : Nat → NetOut) (hf : Bool) (track : TrackRec) :
    (search_and_download_audio_smart ctl net hf track t).1 =
      cancelledResult track.song_id := by
  unfold search_and_download_audio_smart check_pause
  rw [h]
  simp

/-- Once the loop logs a cancelled result it breaks: the cancelled entry
is the last entry of the download log, so no later item of the job gets a
result at all. -/
theorem processTracks_cancelled_last (ctl : DownloadController) (net : Nat → NetOut)
    (approved : Bool) (hasFile : String → Bool) :
    ∀ (tracks : List TrackRec) (st : LoopSt),
      (∀ r ∈ st.download_log, ¬ r.status = "cancelled") →
      ∀ i r,
        (processTracks ctl net approved hasFile tracks st).download_log.get? i = some r →
        r.status = "cancelled" →
        (processTracks ctl net approved hasFile tracks st).download_log.length = i + 1 := by
  intro tracks
  induction tracks with
  | nil =>
    intro st hclean i r hget hcan
    exact absurd hcan (hclean r (List.get?_mem hget))
  | cons track rest ih =>
    intro st hclean i r hget hcan
    cases h1 : is_cancelled ctl st.t with
    | true =>
      rw [processTracks_halt h1] at hget ⊢
      exact absurd hcan (hclean r (List.get?_mem hget))
    | false =>
      cases h2 : check_pause ctl (st.t + 1) with
      | false =>
        simp only [processTracks, h1, h2, Bool.false_eq_true, not_false_iff, if_false,
          if_true] at hget ⊢
        exact absurd hcan (hclean r (List.get?_mem hget))
      | true =>
        have step : processTracks ctl net approved hasFile (track :: rest) st =
            if (trackResult ctl net approved hasFile track (st.t + 2)).1.status =
                "cancelled" then
              stepLoopSt st track (trackResult ctl net approved hasFile track (st.t + 2))
            else processTracks ctl net approved hasFile rest
              (stepLoopSt st track (trackResult ctl net approved hasFile track (st.t + 2))) := by
          simp only [processTracks, h1, h2, not_true, if_false, Bool.false_eq_true]
        by_cases hpre : (trackResult ctl net approved hasFile track (st.t + 2)).1.status =
            "cancelled"
        · rw [step, if_pos hpre] at hget ⊢
          rw [stepLoopSt_log] at hget ⊢
          rcases Nat.lt_or_ge i st.download_log.length with hi | hi
          · rw [List.get?_append hi] at hget
            exact absurd hcan (hclean r (List.get?_mem hget))
          · have hb : i <
                (st.download_log ++
                  [(trackResult ctl net approved hasFile track (st.t + 2)).1]).length := by
              by_contra hnb
              rw [List.get?_eq_none.mpr (Nat.le_of_not_lt hnb)] at hget
              exact Option.noConfusion hget
            rw [List.length_append] at hb ⊢
            simp only [List.length_cons, List.length_nil] at hb ⊢
            omega
        · rw [step, if_neg hpre] at hget ⊢
          refine ih _ ?_ i r hget hcan
          rw [stepLoopSt_log]
          intro x hx
          rcases List.mem_append.mp hx with hx | hx
          · exact hclean x hx
          · have hxe : x = (trackResult ctl net approved hasFile track (st.t + 2)).1 := by
              simpa using hx
            rw [hxe]
            exact hpre

/-- A cancelled run is recorded by `run_batch_processing_mode` as `failed`
with error `Cancelled by user` at the cursor -- never as `completed`. -/
theorem batch_mark_cancelled {b : PlaylistBatch} {r : JobResult} {cc : Bool}
    (herr : r.error = none) (hcan : r.cancelled_count > 0 ∨ cc = true)
    (hcur : b.current_playlist_index < b.playlists.length) :
    statusAt (batch_mark_after b r cc) b.current_playlist_index = some "failed" ∧
      (batch_mark_after b r cc).playlists.get? b.current_playlist_index =
        some ⟨(b.playlists.get ⟨b.current_playlist_index, hcur⟩).name,
          (b.playlists.get ⟨b.current_playlist_index, hcur⟩).url, "failed",
          r.tracks_count, r.success_count, some "Cancelled by user"⟩ := by
  unfold batch_mark_after
  rw [herr]
  rw [if_pos hcan]
  constructor
  · rw [statusAt_mark_self hcur]
    rfl
  · unfold mark_playlist_completed
    rw [List.get?_eq_get hcur]
    dsimp only
    rw [List.get?_set_eq_of_lt _ hcur]
    rfl

/-! ## Lemmas: resolution and upsert registration -/

theorem resolve_of_find {m : Manager} {t : TrackInfo} {g : String}
    (h : find_existing_song m t = some g) : resolve_song_id m t = g := by
  unfold resolve_song_id
  rw [h]

theorem resolve_of_none {m : Manager} {t : TrackInfo}
    (h : find_existing_song m t = none) :
    resolve_song_id m t = generate_song_id t.track_name t.artists_string := by
  unfold resolve_song_id
  rw [h]

theorem find_existing_song_empty (t : TrackInfo) :
    find_existing_song (load_existing_database []) t = none := by
  unfold find_existing_song load_existing_database
  simp [dictGet, ite_self]

/-- After a new song's upsert registers its URI and name+artist key, any
record carrying the same URI and normalised names resolves to that id. -/
theorem find_after_add_new {m : Manager} {sid : String} {t : TrackInfo}
    (c : Consolidator) (ds : String)
    (hget : dictGet m.existing_songs sid = none)
    (hn : normStr t.track_name ≠ "") (ha : normStr t.artists_string ≠ "")
    (t' : TrackInfo) (hu : t'.track_uri = t.track_uri)
    (hkn : normStr t'.track_name = normStr t.track_name)
    (hka : normStr t'.artists_string = normStr t.artists_string) :
    find_existing_song (add_song_to_playlist m c sid t ds).1 t' = some sid := by
  rw [add_manager_new hget]
  unfold find_existing_song
  by_cases huri : t.track_uri = ""
  · simp [hu, huri, hkn, hka, hn, ha, dictGet_dictInsert]
  · simp [hu, huri, hkn, hka, dictGet_dictInsert]

/-- After a new song's upsert registers its non-empty URI, a record
carrying that URI resolves to the new id regardless of its name and
performer strings: the URI lookup comes first and hits the fresh
registration. -/
theorem find_after_add_new_uri {m : Manager} {sid : String} {t : TrackInfo}
    (c : Consolidator) (ds : String)
    (hget : dictGet m.existing_songs sid = none)
    (hu : t.track_uri ≠ "")
    (t' : TrackInfo) (h1 : t'.track_uri = t.track_uri) :
    find_existing_song (add_song_to_playlist m c sid t ds).1 t' = some sid := by
  rw [add_manager_new hget]
  unfold find_existing_song
  simp [h1, hu, dictGet_dictInsert]

/-- After a new song's upsert registers its name+performer key, a record
carrying no URI that normalises to the same key resolves to the new id
through the key index. -/
theorem find_after_add_new_key {m : Manager} {sid : String} {t : TrackInfo}
    (c : Consolidator) (ds : String)
    (hget : dictGet m.existing_songs sid = none)
    (hn : normStr t.track_name ≠ "") (ha : normStr t.artists_string ≠ "")
    (t' : TrackInfo) (h0 : t'.track_uri = "")
    (hkn : normStr t'.track_name = normStr t.track_name)
    (hka : normStr t'.artists_string = normStr t.artists_string) :
    find_existing_song (add_song_to_playlist m c sid t ds).1 t' = some sid := by
  rw [add_manager_new hget]
  unfold find_existing_song
  simp [h0, hkn, hka, hn, ha, dictGet_dictInsert]

/-- First ingest of a valid track into an empty catalog: the table holds
exactly the minted entry, and the resolver now finds it. -/
theorem ingest_empty (p : String) (t : TrackInfo)
    (hn : normStr t.track_name ≠ "") (ha : normStr t.artists_string ≠ "") :
    (ingestTrack p (load_existing_database []) t).existing_songs =
      [(generate_song_id t.track_name t.artists_string, ⟨t, [p], "success"⟩)] ∧
    find_existing_song (ingestTrack p (load_existing_database []) t) t =
      some (generate_song_id t.track_name t.artists_string) := by
  have hf0 : find_existing_song (load_existing_database []) t = none :=
    find_existing_song_empty t
  have hres := resolve_of_none hf0
  unfold ingestTrack
  rw [hres]
  have hget : dictGet (load_existing_database []).existing_songs
      (generate_song_id t.track_name t.artists_string) = none := rfl
  constructor
  · rw [add_manager_new hget]
    rfl
  · exact find_after_add_new _ _ hget hn ha t rfl rfl rfl

/-- Re-ingesting a track that resolves to the single existing entry keeps
the table a singleton: the playlist is appended only when absent, the
metadata snapshot stays, and the resolver still finds the same id. -/
theorem ingest_keep {p : String} {m : Manager} {t : TrackInfo} {g : String}
    {s : SongInfo} (htab : m.existing_songs = [(g, s)])
    (hfind : find_existing_song m t = some g) :
    ∃ s2, (ingestTrack p m t).existing_songs = [(g, s2)] ∧
      s2.playlists = (if p ∈ s.playlists then s.playlists else s.playlists ++ [p]) ∧
      s2.metadata = s.metadata ∧
      find_existing_song (ingestTrack p m t) t = some g := by
  have hres := resolve_of_find hfind
  unfold ingestTrack
  rw [hres]
  have hget : dictGet m.existing_songs g = some s := by
    rw [htab]
    simp [dictGet]
  by_cases hp : p ∈ s.playlists
  · rw [add_manager_noop hget hp]
    exact ⟨s, htab, (if_pos hp).symm, rfl, hfind⟩
  · rw [add_manager_existing hget hp]
    refine ⟨{ s with playlists := s.playlists ++ [p] }, ?_, ?_, rfl, ?_⟩
    · dsimp only
      rw [htab]
      simp [dictInsert]
    · rw [if_neg hp]
    · unfold find_existing_song at hfind ⊢
      exact hfind

/-- Folding further ingests of the same track over a list of playlist
names: the table stays a singleton with duplicate-free membership covering
every ingested playlist. -/
theorem ingest_fold (t : TrackInfo) :
    ∀ (ps : List String) (m : Manager) (g : String) (s : SongInfo),
      m.existing_songs = [(g, s)] →
      find_existing_song m t = some g →
      s.playlists.Nodup →
      ∃ s2, (ps.foldl (fun acc q => ingestTrack q acc t) m).existing_songs = [(g, s2)] ∧
        find_existing_song (ps.foldl (fun acc q => ingestTrack q acc t) m) t = some g ∧
        s2.playlists.Nodup ∧
        (∀ q ∈ s.playlists, q ∈ s2.playlists) ∧
        (∀ q ∈ ps, q ∈ s2.playlists) ∧
        (∀ q ∈ s2.playlists, q ∈ s.playlists ∨ q ∈ ps) := by
  intro ps
  induction ps with
  | nil =>
    intro m g s htab hfind hnd
    exact ⟨s, htab, hfind, hnd, fun q h => h, by simp, fun q h => Or.inl h⟩
  | cons p rest ih =>
    intro m g s htab hfind hnd
    simp only [List.foldl_cons]
    obtain ⟨s1, htab1, hpl1, _, hfind1⟩ := ingest_keep htab hfind
    have hnd1 : s1.playlists.Nodup := by
      rw [hpl1]
      by_cases hp : p ∈ s.playlists
      · rw [if_pos hp]
        exact hnd
      · rw [if_neg hp]
        refine List.Nodup.append hnd (List.nodup_singleton p) ?_
        intro a hax hay
        have haeq : a = p := by simpa using hay
        exact hp (haeq ▸ hax)
    obtain ⟨s2, htab2, hfind2, hnd2, hsup, hmemRest, hsub⟩ := ih _ g s1 htab1 hfind1 hnd1
    have hs1mem : ∀ q ∈ s.playlists, q ∈ s1.playlists := by
      intro q hq
      rw [hpl1]
      by_cases hp : p ∈ s.playlists
      · rw [if_pos hp]
        exact hq
      · rw [if_neg hp]
        exact List.mem_append_left _ hq
    have hpmem : p ∈ s1.playlists := by
      rw [hpl1]
      by_cases hp : p ∈ s.playlists
      · rw [if_pos hp]
        exact hp
      · rw [if_neg hp]
        exact List.mem_append_right _ (by simp)
    refine ⟨s2, htab2, hfind2, hnd2, ?_, ?_, ?_⟩
    · intro q hq
      exact hsup q (hs1mem q hq)
    · intro q hq
      rcases List.mem_cons.mp hq with rfl | hq
      · exact hsup _ hpmem
      · exact hmemRest q hq
    · intro q hq
      rcases hsub q hq with h | h
      · rw [hpl1] at h
        by_cases hp : p ∈ s.playlists
        · rw [if_pos hp] at h
          exact Or.inl h
        · rw [if_neg hp] at h
          rcases List.mem_append.mp h with h2 | h2
          · exact Or.inl h2
          · right
            have hqp : q = p := by simpa using h2
            rw [hqp]
            exact List.mem_cons_self _ _
      · exact Or.inr (List.mem_cons_of_mem _ h)

/-! ## Lemmas: `sanitize_filename` and the playlist table -/

theorem collapseRuns_cons (flag : Bool) (d : Char) (rest : List Char) :
    collapseRuns flag (d :: rest) =
      if isDashSpace d then
        (if flag then collapseRuns true rest else '-' :: collapseRuns true rest)
      else d :: collapseRuns false rest := by
  simp [collapseRuns]

theorem collapseRuns_chars :
    ∀ (flag : Bool) (l : List Char) (c : Char), c ∈ collapseRuns flag l →
      c = '-' ∨ (c ∈ l ∧ isDashSpace c = false) := by
  intro flag l
  induction l generalizing flag with
  | nil =>
    intro c hc
    simp [collapseRuns] at hc
  | cons d rest ih =>
    intro c hc
    rw [collapseRuns_cons] at hc
    by_cases hd : isDashSpace d = true
    · rw [if_pos hd] at hc
      cases flag with
      | true =>
        rw [if_pos rfl] at hc
        exact (ih true c hc).imp (fun h => h)
          (fun h => ⟨List.mem_cons_of_mem _ h.1, h.2⟩)
      | false =>
        rw [if_neg (by simp)] at hc
        rcases List.mem_cons.mp hc with rfl | hc2
        · exact Or.inl rfl
        · exact (ih true c hc2).imp (fun h => h)
            (fun h => ⟨List.mem_cons_of_mem _ h.1, h.2⟩)
    · rw [if_neg hd] at hc
      rcases List.mem_cons.mp hc with rfl | hc2
      · right
        exact ⟨List.mem_cons_self _ _, by simpa using hd⟩
      · exact (ih false c hc2).imp (fun h => h)
          (fun h => ⟨List.mem_cons_of_mem _ h.1, h.2⟩)

theorem pyStrip_subset {p : Char → Bool} {l : List Char} {c : Char}
    (hc : c ∈ pyStrip p l) : c ∈ l := by
  unfold pyStrip at hc
  rw [List.mem_reverse] at hc
  have h1 := (List.dropWhile_sublist _).subset hc
  rw [List.mem_reverse] at h1
  exact (List.dropWhile_sublist _).subset h1

/-- Every character the sanitizer emits is a word character or the
hyphen separator it introduces for whitespace runs. -/
theorem sanitize_chars (s : String) :
    ∀ c ∈ (sanitize_filename s).data, isWordChar c = true ∨ c = '-' := by
  have hUF : ∀ c ∈ ("unknown_file" : String).data, isWordChar c = true := by
    intro c hc
    have hall : ("unknown_file" : String).data.all (fun ch => isWordChar ch) = true := by
      decide
    exact List.all_eq_true.mp hall c hc
  unfold sanitize_filename
  split
  · intro c hc
    exact Or.inl (hUF c hc)
  · dsimp only
    split
    · intro c hc
      exact Or.inl (hUF c hc)
    · intro c hc
      have hc2 : c ∈ pyStrip (fun ch => ch == '-')
          (collapseRuns false
            (((pyStrip isSpaceChar s.data).filter (fun ch => ¬ isInvalidFsChar ch)).filter
              (fun ch => isWordChar ch || isSpaceChar ch || ch == '-'))) :=
        List.take_subset 100 _ hc
      have hc4 := pyStrip_subset hc2
      rcases collapseRuns_chars false _ c hc4 with h | ⟨hmem, hds⟩
      · exact Or.inr h
      · left
        have hmem2 := List.mem_filter.mp hmem
        cases hw : isWordChar c with
        | true => rfl
        | false =>
          exfalso
          have hpred := hmem2.2
          rw [hw] at hpred
          simp at hpred
          simp [isDashSpace] at hds
          rcases hpred with h | h
          · exact absurd h (by simp [hds.2])
          · exact hds.1 h

theorem sanitize_ne_empty (s : String) : ¬ sanitize_filename s = "" := by
  unfold sanitize_filename
  split
  · decide
  · dsimp only
    split
    · decide
    · rename_i hres
      intro hcon
      exact hres (congrArg String.data hcon)

theorem sanitize_length_le (s : String) : (sanitize_filename s).length ≤ 100 := by
  unfold sanitize_filename
  split
  · decide
  · dsimp only
    split
    · decide
    · exact List.length_take_le 100 _

theorem countP_dictInsert_key {α : Type} :
    ∀ (l : List (String × α)) (k : String) (v : α), (dictKeys l).Nodup →
      (dictInsert l k v).countP (fun e => e.1 = k) = 1 := by
  intro l
  induction l with
  | nil =>
    intro k v _
    simp [dictInsert, List.countP_cons]
  | cons e rest ih =>
    intro k v hn
    rw [dictKeys_cons, List.nodup_cons] at hn
    by_cases he : e.1 = k
    · have hrepl : dictInsert (e :: rest) k v = (k, v) :: rest := by
        simp [dictInsert, he]
      rw [hrepl, List.countP_cons]
      have hzero : rest.countP (fun f => f.1 = k) = 0 := by
        rw [List.countP_eq_zero]
        intro f hf
        simp only [decide_eq_true_eq]
        intro hfk
        exact hn.1 (he ▸ hfk ▸ List.mem_map_of_mem Prod.fst hf)
      rw [hzero]
      simp
    · have hrepl : dictInsert (e :: rest) k v = e :: dictInsert rest k v := by
        simp [dictInsert, he]
      rw [hrepl, List.countP_cons, ih k v hn.2]
      simp [he]

/-- Two consecutive saves under the same playlist key leave exactly one
entry for that key in the playlists table, holding the later record. -/
theorem save_twice_playlists {m1 m2 : Manager} {c1 c2 : Consolidator}
    {pm1 pm2 : PlaylistMeta} {d : Disk}
    (hname : c1.playlist_name = c2.playlist_name)
    (hn : (dictKeys d.playlistsT).Nodup) :
    dictGet (save_consolidated_metadata m2 c2 pm2
        (save_consolidated_metadata m1 c1 pm1 d)).playlistsT c2.playlist_name =
      some pm2 ∧
      dictGet (save_consolidated_metadata m2 c2 pm2
        (save_consolidated_metadata m1 c1 pm1 d)).playlistsT c1.playlist_name =
      some pm2 ∧
      (save_consolidated_metadata m2 c2 pm2
        (save_consolidated_metadata m1 c1 pm1 d)).playlistsT.countP
          (fun e => e.1 = c2.playlist_name) = 1 := by
  rw [save_playlists_eq, save_playlists_eq]
  refine ⟨?_, ?_, ?_⟩
  · rw [dictGet_dictInsert, if_pos rfl]
  · rw [hname, dictGet_dictInsert, if_pos rfl]
  · exact countP_dictInsert_key _ _ _ (dictKeys_nodup_dictInsert hn pm1)

/-! ## The claims -/

/-- C1: for every raw event stream and every starting catalog (with
well-formed, duplicate-free song keys), running the full
capture-normalize-resolve-persist pipeline twice — the second run loading
the catalog saved by the first — leaves the Catalog Store unchanged after
the second run: the songs table is reproduced exactly, hence it holds the
same set of SongIds with the same count, and every song's
playlist-membership list equals its value after the first run. -/
theorem C1_pipeline_idempotent (d : Disk) (events : List RawEvent) (p : String)
    (hn : (dictKeys d.songs).Nodup) :
    (runJob (runJob d events p).disk events p).disk.songs =
        (runJob d events p).disk.songs ∧
      dictKeys (runJob (runJob d events p).disk events p).disk.songs =
        dictKeys (runJob d events p).disk.songs ∧
      (runJob (runJob d events p).disk events p).disk.songs.length =
        (runJob d events p).disk.songs.length ∧
      ∀ sid, (dictGet (runJob (runJob d events p).disk events p).disk.songs sid).map
          SongInfo.playlists =
        (dictGet (runJob d events p).disk.songs sid).map SongInfo.playlists := by
  have h := runJob_idempotent d events p hn
  exact ⟨h, by rw [h], by rw [h], fun sid => by rw [h]⟩

/-- Witness for C1 at the concrete two-item stream over the empty catalog. -/
theorem C1_pipeline_idempotent_witness :
    (runJob (runJob emptyDisk demoEvents "P1").disk demoEvents "P1").disk.songs =
      (runJob emptyDisk demoEvents "P1").disk.songs :=
  (C1_pipeline_idempotent emptyDisk demoEvents "P1" (by decide)).1

/-- C2: in every catalog state whose URI index maps a URI to SongId X (X
present in the songs table), resolving any record carrying that URI
returns X — never a newly minted id — even when the record's name and
performer strings differ from X's stored metadata; and the subsequent
upsert leaves X's stored metadata snapshot and both lookup indexes
unchanged, only appending the current playlist to X's membership set when
absent, and leaves every other song untouched. -/
theorem C2_uri_resolution_wins (m : Manager) (t : TrackInfo) (X : String)
    (s : SongInfo) (hu : t.track_uri ≠ "")
    (hreg : dictGet m.uri_to_song_id t.track_uri = some X)
    (hX : dictGet m.existing_songs X = some s) :
    find_existing_song m t = some X ∧
      resolve_song_id m t = X ∧
      ∀ c ds,
        (dictGet (add_song_to_playlist m c X t ds).1.existing_songs X).map
            SongInfo.metadata = some s.metadata ∧
          (dictGet (add_song_to_playlist m c X t ds).1.existing_songs X).map
            SongInfo.playlists =
            some (if c.playlist_name ∈ s.playlists then s.playlists
              else s.playlists ++ [c.playlist_name]) ∧
          (add_song_to_playlist m c X t ds).1.uri_to_song_id = m.uri_to_song_id ∧
          (add_song_to_playlist m c X t ds).1.name_artist_to_song_id =
            m.name_artist_to_song_id ∧
          ∀ q, q ≠ X →
            dictGet (add_song_to_playlist m c X t ds).1.existing_songs q =
              dictGet m.existing_songs q := by
  have hfind : find_existing_song m t = some X := by
    unfold find_existing_song
    dsimp only
    rw [if_pos hu, hreg]
  refine ⟨hfind, resolve_of_find hfind, ?_⟩
  intro c ds
  by_cases hp : c.playlist_name ∈ s.playlists
  · rw [add_manager_noop hX hp]
    refine ⟨by rw [hX]; rfl, ?_, rfl, rfl, fun q _ => rfl⟩
    rw [hX, if_pos hp]
    rfl
  · rw [add_manager_existing hX hp]
    dsimp only
    refine ⟨?_, ?_, rfl, rfl, ?_⟩
    · rw [dictGet_dictInsert, if_pos rfl]
      rfl
    · rw [dictGet_dictInsert, if_pos rfl, if_neg hp]
      rfl
    · intro q hq
      rw [dictGet_dictInsert, if_neg hq]

/-- Witness for C2: a URI registered under "X1" resolves there although
the incoming record carries a different name and performer. -/
theorem C2_uri_resolution_wins_witness :
    find_existing_song
      ⟨[("X1", ⟨demoSongA, ["P1"], "success"⟩)], [("u1", "X1")], []⟩
      ⟨"Other Name", ["Other"], "Other", "Alb", "u1"⟩ = some "X1" :=
  (C2_uri_resolution_wins
    ⟨[("X1", ⟨demoSongA, ["P1"], "success"⟩)], [("u1", "X1")], []⟩
    ⟨"Other Name", ["Other"], "Other", "Alb", "u1"⟩ "X1"
    ⟨demoSongA, ["P1"], "success"⟩ (by decide) (by decide) (by decide)).1

/-- C3: starting from an empty songs table, ingesting one valid track into
"P1" and then re-ingesting the same track any number of times into "P1"
and "P2" (with "P2" ingested at least once) yields exactly one song-table
entry for it, whose membership list is duplicate-free and lists "P1" and
"P2" exactly once each. -/
theorem C3_upsert_idempotent_accumulates (t : TrackInfo) (ps : List String)
    (hn : normStr t.track_name ≠ "") (ha : normStr t.artists_string ≠ "")
    (_hps : ∀ q ∈ ps, q = "P1" ∨ q = "P2") (hP2 : "P2" ∈ ps) :
    ∃ s2,
      (ps.foldl (fun acc q => ingestTrack q acc t)
          (ingestTrack "P1" (load_existing_database []) t)).existing_songs =
        [(generate_song_id t.track_name t.artists_string, s2)] ∧
      s2.playlists.Nodup ∧
      s2.playlists.count "P1" = 1 ∧
      s2.playlists.count "P2" = 1 := by
  obtain ⟨htab0, hfind0⟩ := ingest_empty "P1" t hn ha
  obtain ⟨s2, htab2, _, hnd2, hsup, hmemRest, _⟩ :=
    ingest_fold t ps _ _ _ htab0 hfind0 (List.nodup_singleton "P1")
  refine ⟨s2, htab2, hnd2, ?_, ?_⟩
  · exact List.count_eq_one_of_mem hnd2 (hsup "P1" (by simp))
  · exact List.count_eq_one_of_mem hnd2 (hmemRest "P2" hP2)

/-- Witness for C3: "Song A" by "Artist X" ingested into P1, then
re-ingested into P1 and P2 repeatedly. -/
theorem C3_upsert_idempotent_accumulates_witness :
    ∃ s2,
      ((["P1", "P2", "P2", "P1"] : List String).foldl
          (fun acc q => ingestTrack q acc demoSongA)
          (ingestTrack "P1" (load_existing_database []) demoSongA)).existing_songs =
        [(generate_song_id demoSongA.track_name demoSongA.artists_string, s2)] ∧
      s2.playlists.Nodup ∧
      s2.playlists.count "P1" = 1 ∧
      s2.playlists.count "P2" = 1 :=
  C3_upsert_idempotent_accumulates demoSongA ["P1", "P2", "P2", "P1"]
    (by decide) (by decide) (by decide) (by decide)

set_option maxRecDepth 10000 in
/-- C4 counterexample: in one extraction batch, two items carrying the same
URI but different names resolve to two different minted SongIds — the
extractor registers nothing against the in-memory index at mint time, so
the second item's URI lookup misses and a second id is minted before any
save. -/
theorem C4_counterexample :
    demoUriA.uri = demoUriC.uri ∧
      (extract_enhanced_track_info (load_existing_database [])
          [demoUriA, demoUriC]).1.map TrackRec.song_id =
        ["song_dbf08e00b01f", "song_7157ab0b4bbb"] ∧
      ¬ ("song_dbf08e00b01f" : String) = "song_7157ab0b4bbb" := by
  refine ⟨rfl, by decide, by decide⟩

/-- C4 (amended): registration of the external URI and the name+performer
key against a newly minted SongId happens at the first upsert
(`add_song_to_playlist`) of that id — not at mint time inside extraction.
After that upsert both in-memory indexes map to the new id; every record
carrying the same URI — even with entirely different name and performer
strings — resolves to it, and a record carrying no URI that normalises to
the same name+performer key resolves to it as well, all before any save
occurs. -/
theorem C4_amended (m : Manager) (c : Consolidator) (sid : String) (t : TrackInfo)
    (ds : String) (hget : dictGet m.existing_songs sid = none)
    (hu : t.track_uri ≠ "")
    (hn : normStr t.track_name ≠ "") (ha : normStr t.artists_string ≠ "") :
    dictGet (add_song_to_playlist m c sid t ds).1.uri_to_song_id t.track_uri =
        some sid ∧
      dictGet (add_song_to_playlist m c sid t ds).1.name_artist_to_song_id
        (normStr t.track_name ++ "|" ++ normStr t.artists_string) = some sid ∧
      (∀ t', t'.track_uri = t.track_uri →
        find_existing_song (add_song_to_playlist m c sid t ds).1 t' = some sid) ∧
      (∀ t', t'.track_uri = "" →
        normStr t'.track_name = normStr t.track_name →
        normStr t'.artists_string = normStr t.artists_string →
        find_existing_song (add_song_to_playlist m c sid t ds).1 t' = some sid) := by
  refine ⟨?_, ?_, fun t' h1 => find_after_add_new_uri c ds hget hu t' h1,
    fun t' h0 h2 h3 => find_after_add_new_key c ds hget hn ha t' h0 h2 h3⟩
  · rw [add_manager_new hget]
    dsimp only
    rw [if_pos hu, dictGet_dictInsert, if_pos rfl]
  · rw [add_manager_new hget]
    dsimp only
    rw [if_pos ⟨hn, ha⟩, dictGet_dictInsert, if_pos rfl]

/-- Witness for the amended C4: after the upsert, a record with the same
URI but a completely different name and performer resolves to the
registered id. -/
theorem C4_amended_witness :
    find_existing_song (add_song_to_playlist ⟨[], [], []⟩ ⟨"P1", []⟩ "song_x"
        demoSongA "success").1
      ⟨"Different Name", ["Other"], "Other", "Alb", demoSongA.track_uri⟩ =
      some "song_x" :=
  (C4_amended ⟨[], [], []⟩ ⟨"P1", []⟩ "song_x" demoSongA "success"
    (by decide) (by decide) (by decide) (by decide)).2.2.1
    ⟨"Different Name", ["Other"], "Other", "Alb", demoSongA.track_uri⟩ rfl

/-- C5 counterexample: a stale mapping entry ("ghost") with no
corresponding song in the saved song table survives
`save_consolidated_metadata` untouched, so the persisted mapping is not
consistent with the persisted song table in both directions. -/
theorem C5_counterexample :
    dictGet (save_consolidated_metadata
        ⟨[("s1", ⟨demoSongA, ["P1"], "success"⟩)], [], []⟩
        ⟨"P1", ["s1"]⟩ ⟨"P1", 1, ["s1"]⟩
        ⟨[], [], [("ghost", ["P"])]⟩).mapping "ghost" = some ["P"] ∧
      dictGet (save_consolidated_metadata
        ⟨[("s1", ⟨demoSongA, ["P1"], "success"⟩)], [], []⟩
        ⟨"P1", ["s1"]⟩ ⟨"P1", 1, ["s1"]⟩
        ⟨[], [], [("ghost", ["P"])]⟩).songs "ghost" = none := by
  decide

/-- C5 (amended): after a save (with duplicate-free saved song keys), the
mapping is consistent with the saved song table in the forward direction —
every saved song with a non-empty membership list has a mapping entry equal
to that list — and every mapping entry either equals such a song's
membership list or is a stale entry carried over unchanged from the
pre-existing on-disk mapping; the backward direction fails only through
such stale entries. -/
theorem C5_amended (m : Manager) (c : Consolidator) (pm : PlaylistMeta) (d : Disk)
    (hn : (dictKeys (save_consolidated_metadata m c pm d).songs).Nodup) :
    (∀ sid s, dictGet (save_consolidated_metadata m c pm d).songs sid = some s →
        s.playlists ≠ [] →
        dictGet (save_consolidated_metadata m c pm d).mapping sid =
          some s.playlists) ∧
      (∀ sid pl,
        dictGet (save_consolidated_metadata m c pm d).mapping sid = some pl →
        (∃ s, dictGet (save_consolidated_metadata m c pm d).songs sid = some s ∧
            s.playlists = pl ∧ pl ≠ []) ∨
          dictGet d.mapping sid = some pl) :=
  ⟨fun _ _ hg hne => save_mapping_of_song hn hg hne,
    fun _ _ hg => save_mapping_inv hn hg⟩

/-- Witness for the amended C5: the saved song "s1" gets its mapping
entry. -/
theorem C5_amended_witness :
    dictGet (save_consolidated_metadata
        ⟨[("s1", ⟨demoSongA, ["P1"], "success"⟩)], [], []⟩
        ⟨"P1", ["s1"]⟩ ⟨"P1", 1, ["s1"]⟩ emptyDisk).mapping "s1" = some ["P1"] :=
  (C5_amended ⟨[("s1", ⟨demoSongA, ["P1"], "success"⟩)], [], []⟩
    ⟨"P1", ["s1"]⟩ ⟨"P1", 1, ["s1"]⟩ emptyDisk (by decide)).1
    "s1" ⟨demoSongA, ["P1"], "success"⟩ (by decide) (by decide)

/-- C6 counterexample: with both batch entries pending but the persisted
cursor at 1, resume processes index 1 first — the first pending job at or
after the cursor — not index 0, the first pending job of the list. -/
theorem C6_counterexample :
    (run_batch_processing_mode demoResults demoBatch2).2 = [1] ∧
      (List.range' 0 demoBatch2.playlists.length).find?
        (fun i => statusAt demoBatch2 i = some "pending") = some 0 ∧
      ¬ (1 : Nat) = 0 := by
  refine ⟨by decide, by decide, by decide⟩

/-- C6 (amended): resuming a batch never reprocesses a job marked
'completed' or 'failed' — every index the resume loop processes was
pending in the persisted state — and processing resumes exactly at the
first pending job at or after the persisted cursor (the scan starts at the
cursor, so an earlier pending entry below the cursor is not revisited). -/
theorem C6_amended (results : Nat → Nat × Nat × Option String) (b : PlaylistBatch) :
    (∀ j ∈ (run_batch_processing_mode results b).2,
        statusAt b j = some "pending") ∧
      (run_batch_processing_mode results b).2.head? = firstPendingFrom b := by
  constructor
  · intro j hj
    exact run_batch_loop_pending results b _ b [] (fun _ h => h) (by simp) j hj
  · exact run_batch_head results b

/-- Witness for the amended C6 on the concrete two-entry batch. -/
theorem C6_amended_witness :
    (run_batch_processing_mode demoResults demoBatch2).2.head? =
      firstPendingFrom demoBatch2 :=
  (C6_amended demoResults demoBatch2).2

set_option maxRecDepth 10000 in
/-- C7 counterexample: cancellation arriving during the first item's
download gives that item the cancelled result and breaks the loop: the
second item of the job receives no download result at all, rather than a
'cancelled' result of its own. -/
theorem C7_counterexample :
    (processTracks ⟨some 2⟩ (fun _ => NetOut.hit true) true (fun _ => false)
        [demoTrack1, demoTrack2] demoLoopSt).download_log =
      [cancelledResult "s1"] ∧
      ¬ ∃ r ∈ (processTracks ⟨some 2⟩ (fun _ => NetOut.hit true) true
          (fun _ => false) [demoTrack1, demoTrack2] demoLoopSt).download_log,
        r.song_id = "s2" := by
  have hlog : (processTracks ⟨some 2⟩ (fun _ => NetOut.hit true) true (fun _ => false)
      [demoTrack1, demoTrack2] demoLoopSt).download_log = [cancelledResult "s1"] := by
    decide
  refine ⟨hlog, ?_⟩
  rintro ⟨r, hr, hs⟩
  rw [hlog] at hr
  have hre : r = cancelledResult "s1" := by simpa using hr
  rw [hre] at hs
  exact absurd hs (by decide)

/-- C7 (amended): cancelling mid-download makes the in-flight item's
download return the cancelled result; the loop then breaks, so the
cancelled entry is the last entry of the download log and subsequent items
of the job get no results; and a run with a cancelled download is marked
'failed' by the batch controller — never 'completed'. -/
theorem C7_amended :
    (∀ (ctl : DownloadController) (t : Nat), is_cancelled ctl t = true →
        ∀ (net : Nat → NetOut) (hf : Bool) (track : TrackRec),
          (search_and_download_audio_smart ctl net hf track t).1 =
            cancelledResult track.song_id) ∧
      (∀ (ctl : DownloadController) (net : Nat → NetOut) (approved : Bool)
          (hasFile : String → Bool) (tracks : List TrackRec) (st : LoopSt),
        (∀ r ∈ st.download_log, ¬ r.status = "cancelled") →
        ∀ i r,
          (processTracks ctl net approved hasFile tracks st).download_log.get? i =
            some r →
          r.status = "cancelled" →
          (processTracks ctl net approved hasFile tracks st).download_log.length =
            i + 1) ∧
      (∀ (b : PlaylistBatch) (r : JobResult) (cc : Bool), r.error = none →
        r.cancelled_count > 0 ∨ cc = true →
        b.current_playlist_index < b.playlists.length →
        statusAt (batch_mark_after b r cc) b.current_playlist_index =
            some "failed" ∧
          ¬ statusAt (batch_mark_after b r cc) b.current_playlist_index =
            some "completed") := by
  refine ⟨fun ctl t h net hf track => search_cancelled_at_entry h net hf track,
    fun ctl net approved hasFile tracks st hclean i r hget hcan =>
      processTracks_cancelled_last ctl net approved hasFile tracks st hclean i r
        hget hcan,
    fun b r cc herr hcan hcur => ?_⟩
  have h := (batch_mark_cancelled herr hcan hcur).1
  refine ⟨h, ?_⟩
  rw [h]
  intro hcon
  exact absurd (Option.some.inj hcon) (by decide)

/-- Witness for the amended C7: the concrete cancelled-at-entry search. -/
theorem C7_amended_witness :
    (search_and_download_audio_smart ⟨some 0⟩ (fun _ => NetOut.hit true) false
        demoTrack1 0).1 = cancelledResult demoTrack1.song_id :=
  C7_amended.1 ⟨some 0⟩ 0 (by decide) (fun _ => NetOut.hit true) false demoTrack1

set_option maxRecDepth 10000 in
/-- C8 counterexample: the concrete job cancelled inside its first
download (one cancelled result, no job error) is recorded in the batch
file with status 'failed' — one of the two ordinary terminal statuses —
not with a distinct cancellation status. -/
theorem C8_counterexample :
    demoCancelRun.cancelled_count = 1 ∧ demoCancelRun.error = none ∧
      statusAt (batch_mark_after demoBatch demoCancelRun false) 0 =
        some "failed" := by
  decide

/-- C8 (amended): user cancellation reaches the persisted batch only
through `mark_playlist_completed`'s two-valued status: a job cancelled
mid-processing is recorded with status 'failed' — so it is never
'completed', but the cancellation is distinguished from ordinary failure
only by the recorded error text 'Cancelled by user', not by a distinct
status value. -/
theorem C8_amended (b : PlaylistBatch) (r : JobResult) (cc : Bool)
    (herr : r.error = none) (hcan : r.cancelled_count > 0 ∨ cc = true)
    (hcur : b.current_playlist_index < b.playlists.length) :
    statusAt (batch_mark_after b r cc) b.current_playlist_index = some "failed" ∧
      ((batch_mark_after b r cc).playlists.get? b.current_playlist_index).map
        PlaylistEntry.error = some (some "Cancelled by user") ∧
      ¬ statusAt (batch_mark_after b r cc) b.current_playlist_index =
        some "completed" := by
  obtain ⟨h1, h2⟩ := batch_mark_cancelled herr hcan hcur
  refine ⟨h1, by rw [h2]; rfl, ?_⟩
  rw [h1]
  intro hcon
  exact absurd (Option.some.inj hcon) (by decide)

set_option maxRecDepth 10000 in
/-- Witness for the amended C8 at the concrete cancelled job. -/
theorem C8_amended_witness :
    statusAt (batch_mark_after demoBatch demoCancelRun false)
      demoBatch.current_playlist_index = some "failed" :=
  (C8_amended demoBatch demoCancelRun false (by decide) (by decide) (by decide)).1

/-- C9: a raw track wrapper whose extracted track name is empty is
rejected by the validation gate: a skip-log entry with reason exactly
"Track name is empty or too short" is written for it, it contributes no
extracted track, and the catalog the pipeline saves equals the one saved
for the same stream without the item — so it never produces a song-table
entry and never appears in any playlist's membership list. -/
theorem C9_empty_name_rejected (d : Disk) (E F : List RawEvent) (p : String)
    (xs ys : List RawItem) (bad : RawItem)
    (hw : bad.isTrackWrapper = true) (hname : trimStr bad.name = "")
    (hE : capture_requests E = xs ++ bad :: ys)
    (hF : capture_requests F = xs ++ ys) :
    (⟨make_track_info bad, "Track name is empty or too short"⟩ : SkipEntry) ∈
        (runJob d E p).skips ∧
      (extract_enhanced_track_info (load_existing_database d.songs)
          (capture_requests E)).1 =
        (extract_enhanced_track_info (load_existing_database d.songs)
          (capture_requests F)).1 ∧
      (runJob d E p).disk = (runJob d F p).disk := by
  refine ⟨runJob_skip_logged hw hname hE, ?_,
    runJob_disk_drop_invalid hw hname hE hF⟩
  rw [hE, hF, extract_append, extract_append]
  dsimp only
  rw [extract_cons_skip
    (extract_step_empty_name (load_existing_database d.songs) hw hname)]

/-- Witness for C9: the whitespace-named item of the concrete stream is
skip-logged with the exact reason. -/
theorem C9_empty_name_rejected_witness :
    (⟨make_track_info demoBadItem, "Track name is empty or too short"⟩ : SkipEntry) ∈
      (runJob emptyDisk demoEventsWithBad "P1").skips :=
  (C9_empty_name_rejected emptyDisk demoEventsWithBad demoEventsClean "P1"
    [demoItem1] [] demoBadItem (by decide) (by decide) (by decide) (by decide)).1

/-- C10 counterexample: the sanitizer's output is not purged of every
non-word character: for input "a b" it returns "a-b", whose '-' is a
non-word character (and not a filesystem-invalid one) introduced as the
separator for the whitespace run. -/
theorem C10_counterexample :
    sanitize_filename "a b" = "a-b" ∧ '-' ∈ ("a-b" : String).data ∧
      isWordChar '-' = false ∧ isInvalidFsChar '-' = false := by
  decide

/-- C10 (amended): sanitization is a total function of the input string
returning a non-empty string of at most 100 characters drawn from word
characters and the hyphen separator (falling back to "unknown_file" when
nothing remains); and the catalog keeps at most one Playlist record per
sanitized name: saving two jobs whose names sanitize equally leaves
exactly one playlists-table entry under that key, holding the later job's
record. -/
theorem C10_amended (s n1 n2 : String) (m1 m2 : Manager) (pm1 pm2 : PlaylistMeta)
    (d : Disk) (l1 l2 : List String)
    (hsan : sanitize_filename n1 = sanitize_filename n2)
    (hnd : (dictKeys d.playlistsT).Nodup) :
    (¬ sanitize_filename s = "" ∧ (sanitize_filename s).length ≤ 100 ∧
        ∀ c ∈ (sanitize_filename s).data, isWordChar c = true ∨ c = '-') ∧
      dictGet (save_consolidated_metadata m2 ⟨sanitize_filename n2, l2⟩ pm2
          (save_consolidated_metadata m1 ⟨sanitize_filename n1, l1⟩ pm1 d)).playlistsT
        (sanitize_filename n2) = some pm2 ∧
      dictGet (save_consolidated_metadata m2 ⟨sanitize_filename n2, l2⟩ pm2
          (save_consolidated_metadata m1 ⟨sanitize_filename n1, l1⟩ pm1 d)).playlistsT
        (sanitize_filename n1) = some pm2 ∧
      (save_consolidated_metadata m2 ⟨sanitize_filename n2, l2⟩ pm2
          (save_consolidated_metadata m1 ⟨sanitize_filename n1, l1⟩ pm1 d)).playlistsT.countP
        (fun e => e.1 = sanitize_filename n2) = 1 := by
  obtain ⟨g1, g2, g3⟩ := @save_twice_playlists m1 m2 ⟨sanitize_filename n1, l1⟩
    ⟨sanitize_filename n2, l2⟩ pm1 pm2 d hsan hnd
  exact ⟨⟨sanitize_ne_empty s, sanitize_length_le s, sanitize_chars s⟩, g1, g2, g3⟩

/-- Witness for the amended C10 at concrete names with equal sanitized
forms. -/
theorem C10_amended_witness :
    ¬ sanitize_filename "My Playlist!" = "" :=
  ((C10_amended "My Playlist!" "a b" "a  b" ⟨[], [], []⟩ ⟨[], [], []⟩
    ⟨"a-b", 0, []⟩ ⟨"a-b", 1, []⟩ emptyDisk [] [] (by decide) (by decide)).1).1

end SongScrapper
